import Mathlib

/-!
Shallow embedding of the `webhoster` middleware core: the cookie codec
(`src/helpers/CookieObject.js`), the CORS decision middleware
(`src/middleware/cors.js`) and the buffer-encoding content transcoder
(`src/middleware/bufferencoder.js`).

JavaScript strings are modelled as `List Char`; `String.prototype.split` on a
one-character separator is `List.splitOn`, `Array.prototype.join` is
`List.intercalate`.  JavaScript `undefined` is modelled with `Option`, and an
operation that would dereference `undefined` (a `TypeError` at run time) is
modelled in `Except Unit`.
-/

set_option maxHeartbeats 1000000

/-- JavaScript strings, modelled as lists of characters. -/
abbrev JStr := List Char

/-- View a Lean string literal as a model string. -/
def jstr (s : String) : JStr := s.data

/-- Characters recognised as whitespace by JavaScript `trim` and `parseInt`
(space, tab, line terminators, vertical tab, form feed). -/
def isJsSpace (c : Char) : Bool :=
  c = ' ' || c = '\t' || c = '\n' || c = '\r' || c = '\x0b' || c = '\x0c'

/-- JavaScript `String.prototype.trim`: strip leading and trailing whitespace. -/
def jsTrim (s : JStr) : JStr :=
  ((s.dropWhile isJsSpace).reverse.dropWhile isJsSpace).reverse

/-- JavaScript `String.prototype.toLowerCase`, on the ASCII range (the only
range the sources compare case-insensitively). -/
def toLowerChars (s : JStr) : JStr := s.map Char.toLower

/-- JavaScript template interpolation of a possibly-`undefined` string value:
an `undefined` interpolates as the text `undefined`. -/
def jsTemplate (o : Option JStr) : JStr := o.getD (jstr "undefined")

/-- JavaScript truthiness of a possibly-`undefined` string: `undefined` and
the empty string are falsy. -/
def truthyStr : Option JStr → Bool
  | some (_ :: _) => true
  | _ => false

/-- Equality on `Except` values is decidable when it is on both components. -/
instance {ε α : Type} [DecidableEq ε] [DecidableEq α] : DecidableEq (Except ε α) := fun x y =>
  match x, y with
  | .ok a, .ok b => if h : a = b then isTrue (by rw [h]) else isFalse (by simp [h])
  | .error a, .error b => if h : a = b then isTrue (by rw [h]) else isFalse (by simp [h])
  | .ok _, .error _ => isFalse (by simp)
  | .error _, .ok _ => isFalse (by simp)

/-- Decimal digit character for a digit value. -/
def digitChar (n : Nat) : Char := Char.ofNat (48 + n)

/-- Fuel-driven digit emission for decimal rendering; with fuel at least the
number itself the fuel never runs out, which keeps the recursion structural
(so terms reduce inside the kernel). -/
def natDecDigits : Nat → Nat → List Char
  | 0, n => [digitChar n]
  | fuel + 1, n =>
    if n < 10 then [digitChar n]
    else natDecDigits fuel (n / 10) ++ [digitChar (n % 10)]

/-- Decimal representation of a natural number (the digits JavaScript
number-to-string conversion produces for a non-negative integer). -/
def natDecRepr (n : Nat) : List Char := natDecDigits n n

/-- Decimal representation of an integer, as JavaScript `String(n)` /
`Number.prototype.toString` with radix 10 render an integral number. -/
def intDecRepr (n : Int) : JStr :=
  if n < 0 then '-' :: natDecRepr n.natAbs else natDecRepr n.natAbs

/-- Decimal digit test. -/
def isDigitChar (c : Char) : Bool := 48 ≤ c.toNat && c.toNat ≤ 57

/-- Numeric value of a run of decimal digit characters. -/
def digitsToNat (l : List Char) : Nat :=
  l.foldl (fun a c => 10 * a + (c.toNat - 48)) 0

/-- JavaScript numbers as the cookie code can produce them: an integral value
or `NaN`. -/
inductive JSNum where
  | int (n : Int)
  | nan
deriving DecidableEq

/-- Rendering of a `JSNum` by JavaScript template interpolation. -/
def JSNum.render : JSNum → JStr
  | .int n => intDecRepr n
  | .nan => jstr "NaN"

/-- Digit-run parsing after sign handling: a maximal run of decimal digits,
`NaN` when the run is empty. -/
def digitsPart (rest : List Char) (neg : Bool) : JSNum :=
  let ds := rest.takeWhile isDigitChar
  if ds.isEmpty then .nan
  else if neg then .int (-(digitsToNat ds : Int)) else .int (digitsToNat ds)

/-- Sign handling of `parseInt` after whitespace was skipped. -/
def jsParseIntCore : List Char → JSNum
  | [] => .nan
  | c :: rest =>
    if c = '-' then digitsPart rest true
    else if c = '+' then digitsPart rest false
    else digitsPart (c :: rest) false

/-- JavaScript `parseInt(s, 10)`: skip leading whitespace, an optional sign,
then a maximal run of decimal digits; `NaN` when the run is empty. -/
def jsParseInt (s : JStr) : JSNum :=
  jsParseIntCore (s.dropWhile isJsSpace)

/-- JavaScript `parseInt` applied to a possibly-`undefined` argument:
`parseInt(undefined, 10)` coerces `undefined` to the string `undefined`,
which has no digit run, so the result is `NaN`. -/
def jsParseIntOpt : Option JStr → JSNum
  | none => .nan
  | some v => jsParseInt v

/-- JavaScript `Date` values as this code constructs them (`new Date(value)`):
the construction argument is recorded; the code under verification never
inspects the resulting timestamp. -/
inductive JSDate where
  | fromString (raw : Option JStr)
deriving DecidableEq

/-- Stand-in for the host runtime's `Date.prototype.toUTCString` (an external
library facility, not part of this repository); no theorem in this
development evaluates it — every theorem touching serialization fixes
`expires` to `none`. -/
def JSDate.toUTCString : JSDate → JStr
  | .fromString raw => jsTemplate raw

/-- The cookie record (`CookieObject` fields after construction).  Fields that
JavaScript leaves `undefined` when the option is absent are `Option`s;
`secure` and `httpOnly` are coalesced to booleans by the constructor. -/
structure CookieObject where
  name : Option JStr
  value : Option JStr
  expires : Option JSDate
  maxAge : Option JSNum
  domain : Option JStr
  path : Option JStr
  secure : Bool
  httpOnly : Bool
  sameSite : Option JStr
deriving DecidableEq

/-- The partial options record accumulated by `CookieObject.parse` before the
constructor runs (all fields optional, as in the JavaScript object literal). -/
structure CookieOptions where
  name : Option JStr := none
  value : Option JStr := none
  expires : Option JSDate := none
  maxAge : Option JSNum := none
  domain : Option JStr := none
  path : Option JStr := none
  secure : Option Bool := none
  httpOnly : Option Bool := none
  sameSite : Option JStr := none
deriving DecidableEq

/-- The `CookieObject` constructor on an options record: fields are copied,
`secure` and `httpOnly` are defaulted to `false` by `??`. -/
def mkCookieObject (o : CookieOptions) : CookieObject where
  name := o.name
  value := o.value
  expires := o.expires
  maxAge := o.maxAge
  domain := o.domain
  path := o.path
  secure := o.secure.getD false
  httpOnly := o.httpOnly.getD false
  sameSite := o.sameSite

/-- One attribute segment of `CookieObject.parse` (a non-first piece of the
`;`-split): split on `=`, destructure the first two pieces as key and value
(both trimmed), then dispatch on the lowercased key.  Dereferencing an
`undefined` key (`key.toLowerCase()`) is a `TypeError`, modelled as `.error`;
the key is the head of a `split` result and so never is `undefined`, which the
totality theorem makes precise. -/
def parseAttr (o : CookieOptions) (seg : JStr) : Except Unit CookieOptions :=
  let ps := (seg.splitOn '=').map jsTrim
  let value := ps[1]?
  match ps.head? with
  | none => .error ()
  | some key =>
    let k := toLowerChars key
    if k = jstr "expires" then
      .ok { o with expires := some (JSDate.fromString value) }
    else if k = jstr "max-age" then
      .ok { o with maxAge := some (jsParseIntOpt value) }
    else if k = jstr "domain" then
      .ok { o with domain := value }
    else if k = jstr "path" then
      .ok { o with path := value }
    else if k = jstr "secure" then
      .ok { o with secure := some true }
    else if k = jstr "httponly" then
      .ok { o with httpOnly := some true }
    else if k = jstr "samesite" then
      .ok { o with sameSite := value }
    else
      .ok o

/-- Fold `parseAttr` over the attribute segments (indices 1 and up of the
`;`-split), left to right as `forEach` visits them. -/
def parseAttrs : CookieOptions → List JStr → Except Unit CookieOptions
  | o, [] => .ok o
  | o, seg :: rest =>
    match parseAttr o seg with
    | .error e => .error e
    | .ok o' => parseAttrs o' rest

/-- `CookieObject.parse`: split the wire string on `;`; the first segment is
split on `=` and its first two pieces become `name` and `value` (trimmed);
the remaining segments are attribute segments; finally the constructor runs
on the accumulated options. -/
def CookieObject.parse (s : JStr) : Except Unit CookieObject :=
  match s.splitOn ';' with
  | [] => .ok (mkCookieObject {})
  | first :: rest =>
    let ps := (first.splitOn '=').map jsTrim
    let o0 : CookieOptions := { name := ps.head?, value := ps[1]? }
    match parseAttrs o0 rest with
    | .error e => .error e
    | .ok o => .ok (mkCookieObject o)

/-- `CookieObject.prototype.toString`: emit `name=value` (with `undefined`
fields interpolating as the text `undefined`), then each present attribute in
fixed order; `domain`, `path` and `sameSite` are emitted only when truthy,
`expires` and `maxAge` whenever non-null, the flags when `true`. -/
def CookieObject.toString (c : CookieObject) : JStr :=
  jsTemplate c.name ++ '=' :: jsTemplate c.value
    ++ (match c.expires with
        | some d => jstr ";Expires=" ++ d.toUTCString
        | none => [])
    ++ (match c.maxAge with
        | some n => jstr ";Max-Age=" ++ n.render
        | none => [])
    ++ (if truthyStr c.domain then jstr ";Domain=" ++ c.domain.getD [] else [])
    ++ (if truthyStr c.path then jstr ";Path=" ++ c.path.getD [] else [])
    ++ (if c.secure then jstr ";Secure" else [])
    ++ (if c.httpOnly then jstr ";HttpOnly" else [])
    ++ (if truthyStr c.sameSite then jstr ";SameSite=" ++ c.sameSite.getD [] else [])

example : CookieObject.parse (jstr "sid=a=b") =
    .ok (mkCookieObject { name := some (jstr "sid"), value := some (jstr "a") }) := by
  decide

example :
    CookieObject.toString
      (mkCookieObject { name := some (jstr "id"), value := some (jstr "7"),
                        maxAge := some (.int 20), path := some (jstr "/"),
                        secure := some true }) =
    jstr "id=7;Max-Age=20;Path=/;Secure" := by
  decide

example : CookieObject.parse (jstr "") =
    .ok (mkCookieObject { name := some [], value := none }) := by
  decide

/-- Header mappings (request or response): an association list from header
name to value.  A value of `none` models a key that was assigned
`undefined` — present for the `in` operator but falsy on read. -/
abbrev Headers := List (JStr × Option JStr)

/-- Presence-aware lookup: `none` when the key is absent, `some v` when the
key is present with (possibly `undefined`) value `v`. -/
def hGetEntry : Headers → JStr → Option (Option JStr)
  | [], _ => none
  | (k, v) :: rest, key => if k = key then some v else hGetEntry rest key

/-- Read a header as JavaScript property access does: an absent key and a key
holding `undefined` both read as `undefined`. -/
def hLookup (h : Headers) (key : JStr) : Option JStr := (hGetEntry h key).getD none

/-- The JavaScript `in` operator on the header mapping. -/
def hHasKey (h : Headers) (key : JStr) : Bool := (hGetEntry h key).isSome

/-- Property assignment on the header mapping: replace the value of an
existing key, or append a new entry. -/
def hSet : Headers → JStr → Option JStr → Headers
  | [], key, v => [(key, v)]
  | (k, w) :: rest, key, v =>
    if k = key then (k, v) :: rest else (k, w) :: hSet rest key v

/-- The two-value middleware continuation signal. -/
inductive Signal where
  | continue'
  | end'
deriving DecidableEq

/-- Events observable on a response stream: string writes and the end call. -/
inductive StreamEv where
  | write (s : JStr)
  | ended
deriving DecidableEq

/-- The request as the middleware sees it. -/
structure Req where
  method : JStr
  headers : Headers
deriving DecidableEq

/-- The response as the middleware sees it: status, headers, the
headers-sent latch and the (trace of the) front stream. -/
structure Res where
  status : Nat
  headers : Headers
  headersSent : Bool
  stream : List StreamEv
deriving DecidableEq

/-- One entry of the configured origin allow-list: the literal `*`, a plain
string, or a pattern (`RegExp`) modelled by its test predicate. -/
inductive OriginEntry where
  | star
  | str (s : JStr)
  | pattern (test : JStr → Bool)

/-- Options of the CORS middleware (`CORSMiddlewareOptions`). -/
structure CORSMiddlewareOptions where
  allowOrigin : Option (List OriginEntry) := none
  allowCredentials : Bool := false
  allowMethods : Option (List JStr) := none
  allowHeaders : Option (List JStr) := none
  maxAge : Option Int := none
  exposeHeaders : Option (List JStr) := none

/-- The fixed default allow-methods list. -/
def defaultAllowMethods : List JStr :=
  [jstr "GET", jstr "HEAD", jstr "POST", jstr "PUT", jstr "DELETE",
   jstr "CONNECT", jstr "TRACE", jstr "PATCH"]

/-- JavaScript `Array.prototype.join(',')`. -/
def joinComma (parts : List JStr) : JStr := List.intercalate (jstr ",") parts

/-- The `options.allowOrigin.some(...)` loop: scan the allow-list in order,
setting `access-control-allow-origin` at the first matching entry and
stopping there.  A `*` entry matches unconditionally and sets the literal
`*`; a string entry compares case-insensitively with the request Origin and
echoes the raw Origin; a pattern entry tests the raw Origin (`RegExp.test`
coerces an `undefined` argument to the text `undefined`) and echoes it. -/
def allowOriginScan : List OriginEntry → Option JStr → Headers → Headers
  | [], _, h => h
  | .star :: _, _, h => hSet h (jstr "access-control-allow-origin") (some (jstr "*"))
  | .str s :: rest, og, h =>
    if og.map toLowerChars = some (toLowerChars s) then
      hSet h (jstr "access-control-allow-origin") og
    else allowOriginScan rest og h
  | .pattern t :: rest, og, h =>
    if t (jsTemplate og) then hSet h (jstr "access-control-allow-origin") og
    else allowOriginScan rest og h

/-- `executeCORSMiddleware`: pass through without an Origin header; otherwise
resolve the allow-origin header (default `*` when no allow-list is
configured), optionally allow credentials, and for `OPTIONS` requests fill
the preflight headers, force status 200, end the stream with the literal
body `OK` and terminate the pipeline; for other methods optionally set
expose-headers and continue. -/
def executeCORSMiddleware (opts : CORSMiddlewareOptions) (req : Req) (res : Res) :
    Res × Signal :=
  if ¬ hHasKey req.headers (jstr "origin") then (res, .continue')
  else
    let og := hLookup req.headers (jstr "origin")
    let h1 :=
      match opts.allowOrigin with
      | none => hSet res.headers (jstr "access-control-allow-origin") (some (jstr "*"))
      | some entries => allowOriginScan entries og res.headers
    let h2 :=
      if opts.allowCredentials then
        hSet h1 (jstr "access-control-allow-credentials") (some (jstr "true"))
      else h1
    if req.method = jstr "OPTIONS" then
      let h3 :=
        match opts.allowMethods with
        | some ms => hSet h2 (jstr "access-control-allow-methods") (some (joinComma ms))
        | none =>
          hSet h2 (jstr "access-control-allow-methods") (some (joinComma defaultAllowMethods))
      let h4 :=
        match opts.allowHeaders with
        | some hs => hSet h3 (jstr "access-control-allow-headers") (some (joinComma hs))
        | none =>
          hSet h3 (jstr "access-control-allow-headers")
            (hLookup req.headers (jstr "access-control-request-headers"))
      let h5 :=
        match opts.maxAge with
        | some n =>
          if n = 0 then h4
          else hSet h4 (jstr "access-control-max-age") (some (intDecRepr n))
        | none => h4
      let res' : Res :=
        { res with
            headers := h5
            status := 200
            stream := res.stream ++ [StreamEv.write (jstr "OK"), StreamEv.ended] }
      (res', .end')
    else
      let h3 :=
        match opts.exposeHeaders with
        | some hs => hSet h2 (jstr "access-control-expose-headers") (some (joinComma hs))
        | none => h2
      ({ res with headers := h3 }, .continue')

/-- Allow-origin resolution as the specification words it: scan the list in
order and take the first matching entry; `none` when no entry matches (the
header is then left absent). -/
def scanAllowOrigin : List OriginEntry → Option JStr → Option (Option JStr)
  | [], _ => none
  | .star :: _, _ => some (some (jstr "*"))
  | .str s :: rest, og =>
    if og.map toLowerChars = some (toLowerChars s) then some og
    else scanAllowOrigin rest og
  | .pattern t :: rest, og =>
    if t (jsTemplate og) then some og else scanAllowOrigin rest og

/-- Allow-origin outcome including the unconfigured default of `*`. -/
def corsOriginResult : Option (List OriginEntry) → Option JStr → Option (Option JStr)
  | none, _ => some (some (jstr "*"))
  | some entries, og => scanAllowOrigin entries og

/-- Byte buffers (`Buffer`), as lists of byte values. -/
abbrev Buf := List Nat

mutual

/-- Structured (JSON-serializable) values a middleware may write as chunks;
arrays and objects carry their children through the mutually defined spine
types so serialization stays structurally recursive. -/
inductive JValue where
  | null
  | bool (b : Bool)
  | num (n : Int)
  | str (s : JStr)
  | arr (elems : JArray)
  | obj (fields : JFields)

inductive JArray where
  | nil
  | cons (v : JValue) (rest : JArray)

inductive JFields where
  | nil
  | cons (k : JStr) (v : JValue) (rest : JFields)

end

/-- Lowercase hexadecimal digit. -/
def hexDigitChar (n : Nat) : Char := if n < 10 then digitChar n else Char.ofNat (87 + n)

/-- Escaping of one character inside a JSON string literal, as
`JSON.stringify` performs it. -/
def jsonEscapeChar (c : Char) : List Char :=
  if c = '\"' then ['\\', '\"']
  else if c = '\\' then ['\\', '\\']
  else if c = '\x08' then ['\\', 'b']
  else if c = '\t' then ['\\', 't']
  else if c = '\n' then ['\\', 'n']
  else if c = '\x0c' then ['\\', 'f']
  else if c = '\r' then ['\\', 'r']
  else if c.toNat < 32 then
    ['\\', 'u', '0', '0', hexDigitChar (c.toNat / 16), hexDigitChar (c.toNat % 16)]
  else [c]

/-- JSON string literal for a raw string. -/
def jsonQuote (s : JStr) : JStr := '\"' :: ((s.map jsonEscapeChar).flatten ++ ['\"'])

mutual

/-- `JSON.stringify` on a structured value. -/
def jsonStringify : JValue → JStr
  | .null => jstr "null"
  | .bool true => jstr "true"
  | .bool false => jstr "false"
  | .num n => intDecRepr n
  | .str s => jsonQuote s
  | .arr es => '[' :: (jsonStringifyArr es ++ [']'])
  | .obj fs => Char.ofNat 123 :: (jsonStringifyFields fs ++ [Char.ofNat 125])

/-- Comma-joined serializations of array elements. -/
def jsonStringifyArr : JArray → JStr
  | .nil => []
  | .cons v .nil => jsonStringify v
  | .cons v rest => jsonStringify v ++ ',' :: jsonStringifyArr rest

/-- Comma-joined `"key":value` serializations of object fields. -/
def jsonStringifyFields : JFields → JStr
  | .nil => []
  | .cons k v .nil => jsonQuote k ++ ':' :: jsonStringify v
  | .cons k v rest => (jsonQuote k ++ ':' :: jsonStringify v) ++ ',' :: jsonStringifyFields rest

end

/-- The buffer encodings `charsetAsBufferEncoding` can produce. -/
inductive BufferEncoding where
  | latin1
  | utf16le
  | utf8
  | base64
  | hex
deriving DecidableEq

/-- `charsetAsBufferEncoding`: map a (lowercased) charset name to a buffer
encoding; everything outside the recognised alias groups, including
`utf-8`/`utf8` itself, falls to UTF-8. -/
def charsetAsBufferEncoding (charset : JStr) : BufferEncoding :=
  if charset = jstr "iso-8859-1" ∨ charset = jstr "ascii" ∨ charset = jstr "binary"
      ∨ charset = jstr "latin1" then .latin1
  else if charset = jstr "utf-16le" ∨ charset = jstr "ucs-2" ∨ charset = jstr "ucs2"
      ∨ charset = jstr "utf16le" then .utf16le
  else if charset = jstr "base64" then .base64
  else if charset = jstr "hex" then .hex
  else .utf8

/-- UTF-8 bytes of one scalar value. -/
def utf8EncodeChar (c : Char) : Buf :=
  let n := c.toNat
  if n < 128 then [n]
  else if n < 2048 then [192 + n / 64, 128 + n % 64]
  else if n < 65536 then [224 + n / 4096, 128 + (n / 64) % 64, 128 + n % 64]
  else [240 + n / 262144, 128 + (n / 4096) % 64, 128 + (n / 64) % 64, 128 + n % 64]

/-- UTF-16LE bytes of one scalar value (surrogate pair above the BMP). -/
def utf16leEncodeChar (c : Char) : Buf :=
  let n := c.toNat
  if n < 65536 then [n % 256, n / 256]
  else
    let m := n - 65536
    let hi := 55296 + m / 1024
    let lo := 56320 + m % 1024
    [hi % 256, hi / 256, lo % 256, lo / 256]

/-- Value of a hexadecimal digit character. -/
def hexVal (c : Char) : Option Nat :=
  if 48 ≤ c.toNat ∧ c.toNat ≤ 57 then some (c.toNat - 48)
  else if 97 ≤ c.toNat ∧ c.toNat ≤ 102 then some (c.toNat - 87)
  else if 65 ≤ c.toNat ∧ c.toNat ≤ 70 then some (c.toNat - 55)
  else none

/-- `Buffer.from(s, 'hex')`: consume pairs of hex digits, stopping at the
first invalid pair. -/
def hexDecode : List Char → Buf
  | a :: b :: rest =>
    match hexVal a, hexVal b with
    | some x, some y => (16 * x + y) :: hexDecode rest
    | _, _ => []
  | _ => []

/-- Value of a base64 alphabet character (standard and URL-safe forms). -/
def b64Val (c : Char) : Option Nat :=
  if 65 ≤ c.toNat ∧ c.toNat ≤ 90 then some (c.toNat - 65)
  else if 97 ≤ c.toNat ∧ c.toNat ≤ 122 then some (c.toNat - 71)
  else if 48 ≤ c.toNat ∧ c.toNat ≤ 57 then some (c.toNat + 4)
  else if c = '+' ∨ c = '-' then some 62
  else if c = '/' ∨ c = '_' then some 63
  else none

/-- Bytes of a run of base64 sextet values (lenient, as `Buffer.from` with
the `base64` codec: non-alphabet characters are skipped, a trailing partial
group contributes its complete bytes). -/
def b64Bytes : List Nat → Buf
  | a :: b :: c :: d :: rest =>
    (a * 4 + b / 16) :: ((b % 16) * 16 + c / 4) :: ((c % 4) * 64 + d) :: b64Bytes rest
  | [a, b] => [a * 4 + b / 16]
  | [a, b, c] => [a * 4 + b / 16, (b % 16) * 16 + c / 4]
  | _ => []

/-- `Buffer.from(s, 'base64')`. -/
def base64Decode (s : List Char) : Buf := b64Bytes (s.filterMap b64Val)

/-- `Buffer.from(s, encoding)`: bytes of a string under a buffer encoding
(for the `hex` and `base64` codecs this is a decode of the text). -/
def encodeString : BufferEncoding → JStr → Buf
  | .utf8, s => (s.map utf8EncodeChar).flatten
  | .latin1, s => s.map (fun c => c.toNat % 256)
  | .utf16le, s => (s.map utf16leEncodeChar).flatten
  | .hex, s => hexDecode s
  | .base64, s => base64Decode s

/-- Chunk types the transcoder's data handler distinguishes: raw byte
buffers, text strings, and structured values. -/
inductive Chunk where
  | buf (b : Buf)
  | str (s : JStr)
  | obj (j : JValue)

/-- Options of the buffer-encoder middleware. -/
structure BufferEncoderOptions where
  defaultCharset : Option JStr := none
  setCharset : Bool := false
  setJSON : Bool := false
deriving DecidableEq

/-- The configured default charset: `options.defaultCharset || 'utf-8'`
(absent and empty both fall back to `utf-8`). -/
def resolveDefaultCharset (o : BufferEncoderOptions) : JStr :=
  match o.defaultCharset with
  | some (c :: cs) => c :: cs
  | _ => jstr "utf-8"

/-- The per-response mutable closure state of the transcoder. -/
structure TranscoderState where
  charset : Option JStr := none
  encoding : Option BufferEncoding := none
  hasSetJSON : Bool := false
  pendingChunks : List Buf := []
deriving DecidableEq

/-- Events observable on the forward target (destination) stream. -/
inductive DestEv where
  | write (b : Buf)
  | ended
deriving DecidableEq

/-- The whole state a transcoder instance acts on: its closure state, the
response, the end-observer flag of its front stream, and the trace of the
forward target. -/
structure TranscoderM where
  t : TranscoderState
  res : Res
  endCalled : Bool
  dest : List DestEv
deriving DecidableEq

/-- JavaScript `String.prototype.indexOf` restricted to one character. -/
def jsIndexOf (c : Char) : JStr → Option Nat
  | [] => none
  | x :: xs => if x = c then some 0 else (jsIndexOf c xs).map (· + 1)

/-- JavaScript `String.prototype.lastIndexOf` restricted to one character. -/
def jsLastIndexOf (c : Char) (s : JStr) : Option Nat :=
  (jsIndexOf c s.reverse).map (fun i => s.length - 1 - i)

/-- JavaScript `String.prototype.substring`: indices are clamped to the
string and swapped when given in reverse order. -/
def jsSubstring (s : JStr) (a b : Nat) : JStr :=
  let x := min a s.length
  let y := min b s.length
  (s.take (max x y)).drop (min x y)

/-- The `contentType.split(';').some(...)` loop of `parseCharset`: find the
first `;`-directive whose (trimmed, lowercased) key is `charset`; its value
is the second `=`-piece, trimmed and lowercased, with a quoted core stripped
when the value contains quotes.  A `charset` directive with no `=` leaves
the value `undefined`, and the unguarded `charset.indexOf` dereference then
faults (`.error`). -/
def charsetScan : List JStr → Except Unit (Option JStr)
  | [] => .ok none
  | d :: rest =>
    let ps := d.splitOn '='
    if toLowerChars (jsTrim (ps.headD [])) ≠ jstr "charset" then charsetScan rest
    else
      match ps[1]? with
      | none => .error ()
      | some v =>
        let c := toLowerChars (jsTrim v)
        match jsIndexOf '\"' c, jsLastIndexOf '\"' c with
        | some f, some l => .ok (some (jsSubstring c (f + 1) l))
        | _, _ => .ok (some c)

/-- Fallback arm of `parseCharset`: the scan left the charset falsy, so the
configured default is cached and returned, and — when `setCharset` is on and
headers are unsent — `<contentType>;charset=<default>` is written back into
the `content-type` header. -/
def parseCharsetDefaulted (opts : BufferEncoderOptions) (m : TranscoderM)
    (contentType : Option JStr) : JStr × TranscoderM :=
  if opts.setCharset ∧ ¬ m.res.headersSent then
    (resolveDefaultCharset opts,
      { m with
          t := { m.t with charset := some (resolveDefaultCharset opts) }
          res := { m.res with
                     headers := hSet m.res.headers (jstr "content-type")
                       (some (contentType.getD [] ++ jstr ";charset="
                          ++ resolveDefaultCharset opts)) } })
  else
    (resolveDefaultCharset opts,
      { m with t := { m.t with charset := some (resolveDefaultCharset opts) } })

/-- Body of `parseCharset` once the cached charset was found falsy, with the
`content-type` header value already read. -/
def parseCharsetCore (opts : BufferEncoderOptions) (m : TranscoderM)
    (contentType : Option JStr) : Except Unit (JStr × TranscoderM) :=
  match (if truthyStr contentType then charsetScan ((contentType.getD []).splitOn ';')
         else Except.ok none) with
  | .error e => .error e
  | .ok cOpt =>
    if truthyStr cOpt then
      .ok (cOpt.getD [], { m with t := { m.t with charset := some (cOpt.getD []) } })
    else .ok (parseCharsetDefaulted opts m contentType)

/-- `parseCharset`: return the cached charset when truthy; otherwise scan the
`content-type` header for a `charset` directive; when the scan leaves the
charset falsy, fall back to the configured default and, if `setCharset` is
on and headers are unsent, write `<contentType>;charset=<default>` back into
the `content-type` header. -/
def parseCharset (opts : BufferEncoderOptions) (m : TranscoderM) :
    Except Unit (JStr × TranscoderM) :=
  if truthyStr m.t.charset then .ok (m.t.charset.getD [], m)
  else parseCharsetCore opts m (hLookup m.res.headers (jstr "content-type"))

/-- `setJSONMediaType`: a no-op once the flag is set; otherwise rewrite the
`content-type` header by replacing every `;`-directive that contains no `=`
with `application/json`, and set the flag. -/
def setJSONMediaType (m : TranscoderM) : TranscoderM :=
  if m.t.hasSetJSON then m
  else
    let contentType := (hLookup m.res.headers (jstr "content-type")).getD []
    let newCt := List.intercalate (jstr ";")
      ((contentType.splitOn ';').map
        (fun d => if d.contains '=' then d else jstr "application/json"))
    { m with
        res := { m.res with
                   headers := hSet m.res.headers (jstr "content-type") (some newCt) }
        t := { m.t with hasSetJSON := true } }

/-- Cached encoding resolution: on first need, run `parseCharset` and map the
result through `charsetAsBufferEncoding`. -/
def resolveEncoding (opts : BufferEncoderOptions) (m : TranscoderM) :
    Except Unit (BufferEncoding × TranscoderM) :=
  match m.t.encoding with
  | some e => .ok (e, m)
  | none =>
    match parseCharset opts m with
    | .error e => .error e
    | .ok (c, m') =>
      let e := charsetAsBufferEncoding c
      .ok (e, { m' with t := { m'.t with encoding := some e } })

/-- Delivery of a normalized byte chunk: queue it when a logical end was
already requested on the front stream, otherwise forward it at once. -/
def deliverChunk (m : TranscoderM) (b : Buf) : TranscoderM :=
  if m.endCalled then
    { m with t := { m.t with pendingChunks := m.t.pendingChunks ++ [b] } }
  else { m with dest := m.dest ++ [DestEv.write b] }

/-- The front stream's `data` handler: buffers pass through; strings are
encoded with the resolved encoding; structured values are serialized to JSON
text, the JSON media type is applied when configured, the flag is clear and
headers are unsent, and the text is encoded. -/
def onData (opts : BufferEncoderOptions) (m : TranscoderM) : Chunk → Except Unit TranscoderM
  | .buf b => .ok (deliverChunk m b)
  | .str s =>
    match resolveEncoding opts m with
    | .error e => .error e
    | .ok (e, m') => .ok (deliverChunk m' (encodeString e s))
  | .obj j =>
    match resolveEncoding opts m with
    | .error e => .error e
    | .ok (e, m') =>
      let b := encodeString e (jsonStringify j)
      let m'' :=
        if opts.setJSON ∧ ¬ m'.t.hasSetJSON ∧ ¬ m'.res.headersSent then
          setJSONMediaType m'
        else m'
      .ok (deliverChunk m'' b)

/-- The front stream's physical `end` handler: drain the pending queue to the
forward target in arrival order (the shift loop runs until the queue is
empty — every queued chunk is a buffer object and buffers are truthy), then
end the forward target. -/
def onEnd (m : TranscoderM) : TranscoderM :=
  { m with
      t := { m.t with pendingChunks := [] }
      dest := m.dest ++ m.t.pendingChunks.map DestEv.write ++ [DestEv.ended] }

/-- Events driving one transcoder instance: a chunk arriving on the front
stream, the logical end request recorded synchronously by the end observer,
and the physical completion event. -/
inductive TranscoderEv where
  | data (c : Chunk)
  | endRequest
  | finish

/-- One event step of the transcoder instance. -/
def transcoderStep (opts : BufferEncoderOptions) (m : TranscoderM) :
    TranscoderEv → Except Unit TranscoderM
  | .data c => onData opts m c
  | .endRequest => .ok { m with endCalled := true }
  | .finish => .ok (onEnd m)

/-- A run of the transcoder instance over a sequence of events. -/
def transcoderRun (opts : BufferEncoderOptions) (m : TranscoderM) :
    List TranscoderEv → Except Unit TranscoderM
  | [] => .ok m
  | e :: es =>
    match transcoderStep opts m e with
    | .error err => .error err
    | .ok m' => transcoderRun opts m' es

/-- `executeBufferEncoderMiddleware` at the pipeline level: a pure
passthrough for `HEAD` requests, otherwise a stream install whose handlers
are the machine above; the middleware itself always continues. -/
def executeBufferEncoderMiddleware (req : Req) (res : Res) : Signal × Option TranscoderM :=
  if req.method = jstr "HEAD" then (.continue', none)
  else (.continue', some { t := {}, res := res, endCalled := false, dest := [] })

/-- Key of an attribute segment as `parse` computes it: first `=`-piece,
trimmed, lowercased. -/
def keyOfSeg (seg : JStr) : JStr := toLowerChars (((seg.splitOn '=').map jsTrim).headD [])

/-- Allow-origin rewrite of a content-type value as the specification words
the (amended) JSON rewrite: every `;`-directive without an `=` becomes
`application/json`, parameter directives keep their text. -/
def contentTypeJSONRewrite (ct : JStr) : JStr :=
  List.intercalate (jstr ";")
    ((ct.splitOn ';').map (fun d => if d.contains '=' then d else jstr "application/json"))

/-- Relation between a delivered chunk and the byte buffer the data handler
normalizes it to: buffers pass through unchanged, strings and structured
values are encoded under some buffer encoding. -/
def NormRel : Chunk → Buf → Prop
  | .buf bb, b => b = bb
  | .str s, b => ∃ e, b = encodeString e s
  | .obj j, b => ∃ e, b = encodeString e (jsonStringify j)

/-- Strings that survive the cookie wire format unchanged: no separator, no
equals sign, and stable under trimming. -/
def WireSafe (s : JStr) : Prop := ';' ∉ s ∧ '=' ∉ s ∧ jsTrim s = s

/-- Optional attribute values that round-trip: absent, or non-empty and
wire-safe (the serializer drops falsy values). -/
def OptWireSafe : Option JStr → Prop
  | none => True
  | some s => s ≠ [] ∧ WireSafe s

instance (s : JStr) : Decidable (WireSafe s) := by unfold WireSafe; infer_instance

instance (o : Option JStr) : Decidable (OptWireSafe o) := by
  cases o <;> unfold OptWireSafe <;> infer_instance

theorem hGetEntry_hSet_same (h : Headers) (k : JStr) (v : Option JStr) :
    hGetEntry (hSet h k v) k = some v := by
  induction h with
  | nil => simp [hSet, hGetEntry]
  | cons e rest ih =>
    obtain ⟨k', w⟩ := e
    by_cases hk : k' = k <;> simp [hSet, hGetEntry, hk, ih]

theorem hGetEntry_hSet_ne (h : Headers) (k k' : JStr) (v : Option JStr) (hne : k ≠ k') :
    hGetEntry (hSet h k' v) k = hGetEntry h k := by
  induction h with
  | nil => simp [hSet, hGetEntry, Ne.symm hne]
  | cons e rest ih =>
    obtain ⟨k'', w⟩ := e
    by_cases hk : k'' = k' <;> by_cases hk2 : k'' = k <;>
      simp_all [hSet, hGetEntry]

theorem hLookup_hSet_same (h : Headers) (k : JStr) (v : Option JStr) :
    hLookup (hSet h k v) k = v := by
  simp [hLookup, hGetEntry_hSet_same]

theorem hLookup_hSet_ne (h : Headers) (k k' : JStr) (v : Option JStr) (hne : k ≠ k') :
    hLookup (hSet h k' v) k = hLookup h k := by
  simp [hLookup, hGetEntry_hSet_ne _ _ _ _ hne]

theorem splitOn_eq_single {c : Char} {xs : JStr} (h : c ∉ xs) : xs.splitOn c = [xs] := by
  apply List.splitOnP_eq_single
  intro x hx
  simp only [beq_iff_eq]
  exact fun he => h (he ▸ hx)

theorem splitOn_append_cons {c : Char} {xs : JStr} (as : JStr) (h : c ∉ xs) :
    (xs ++ c :: as).splitOn c = xs :: as.splitOn c := by
  have hx : ∀ x ∈ xs, ¬(x == c) = true := by
    intro x hxm
    simp only [beq_iff_eq]
    exact fun he => h (he ▸ hxm)
  have h2 := List.splitOnP_first (· == c) xs hx c (by simp) as
  simpa [List.splitOn] using h2

theorem splitOn_ne_nil (c : Char) (xs : JStr) : xs.splitOn c ≠ [] :=
  List.splitOnP_ne_nil _ xs

theorem splitOn_concat {c : Char} (first : JStr) (segs : List JStr)
    (h1 : c ∉ first) (h2 : ∀ s ∈ segs, c ∉ s) :
    (first ++ (segs.map (c :: ·)).flatten).splitOn c = first :: segs := by
  induction segs generalizing first with
  | nil => simpa using splitOn_eq_single h1
  | cons seg rest ih =>
    have : first ++ ((seg :: rest).map (c :: ·)).flatten
        = first ++ c :: (seg ++ (rest.map (c :: ·)).flatten) := by
      simp
    rw [this, splitOn_append_cons _ h1]
    have := ih seg (h2 seg (by simp)) (fun s hs => h2 s (by simp [hs]))
    rw [this]

theorem toNat_digitChar (d : Nat) (h : d < 10) : (digitChar d).toNat = 48 + d := by
  interval_cases d <;> rfl

theorem isDigitChar_digitChar (d : Nat) (h : d < 10) : isDigitChar (digitChar d) = true := by
  simp [isDigitChar, toNat_digitChar d h]
  omega

theorem natDecDigits_digits (fuel : Nat) :
    ∀ n, n ≤ fuel → ∀ ch ∈ natDecDigits fuel n, isDigitChar ch = true := by
  induction fuel with
  | zero =>
    intro n hn ch hch
    interval_cases n
    simp [natDecDigits] at hch
    subst hch
    exact isDigitChar_digitChar 0 (by omega)
  | succ fuel ih =>
    intro n hn ch hch
    by_cases h10 : n < 10
    · simp [natDecDigits, h10] at hch
      subst hch
      exact isDigitChar_digitChar n h10
    · simp only [natDecDigits, h10, if_false, List.mem_append, List.mem_singleton] at hch
      rcases hch with hch | hch
      · have hlt := Nat.div_lt_self (show 0 < n by omega) (show (1 : Nat) < 10 by omega)
        exact ih (n / 10) (by omega) ch hch
      · subst hch
        exact isDigitChar_digitChar (n % 10) (Nat.mod_lt _ (by omega))

theorem natDecRepr_digits (n : Nat) : ∀ ch ∈ natDecRepr n, isDigitChar ch = true :=
  natDecDigits_digits n n le_rfl

theorem natDecDigits_ne_nil (fuel n : Nat) : natDecDigits fuel n ≠ [] := by
  cases fuel with
  | zero => simp [natDecDigits]
  | succ fuel =>
    by_cases h10 : n < 10 <;> simp [natDecDigits, h10]

theorem foldl_natDecDigits (fuel : Nat) :
    ∀ n, n ≤ fuel → ∀ a,
      (natDecDigits fuel n).foldl (fun x c => 10 * x + (c.toNat - 48)) a
        = a * 10 ^ (natDecDigits fuel n).length + n := by
  induction fuel with
  | zero =>
    intro n hn a
    interval_cases n
    simp [natDecDigits, toNat_digitChar 0 (by omega)]
    ring
  | succ fuel ih =>
    intro n hn a
    by_cases h10 : n < 10
    · simp [natDecDigits, h10, toNat_digitChar n h10]
      omega
    · have hlt := Nat.div_lt_self (show 0 < n by omega) (show (1 : Nat) < 10 by omega)
      have hd : n / 10 ≤ fuel := by omega
      simp only [natDecDigits, h10, if_false, List.foldl_append, List.length_append,
        List.foldl_cons, List.foldl_nil, List.length_cons, List.length_nil]
      rw [ih (n / 10) hd a]
      rw [toNat_digitChar (n % 10) (Nat.mod_lt _ (by omega))]
      have hmod : n / 10 * 10 + n % 10 = n := by omega
      set L := (natDecDigits fuel (n / 10)).length with hL
      calc 10 * (a * 10 ^ L + n / 10) + (48 + n % 10 - 48)
          = a * 10 ^ L * 10 + (n / 10 * 10 + n % 10) := by ring_nf; omega
        _ = a * 10 ^ (L + (0 + 1)) + n := by rw [hmod]; ring

theorem digitsToNat_natDecRepr (n : Nat) : digitsToNat (natDecRepr n) = n := by
  have h := foldl_natDecDigits n n le_rfl 0
  simpa [digitsToNat, natDecRepr] using h

theorem digit_not_space {ch : Char} (h : isDigitChar ch = true) : isJsSpace ch = false := by
  simp only [isDigitChar, Bool.and_eq_true, decide_eq_true_eq] at h
  simp only [isJsSpace, Bool.or_eq_false_iff, decide_eq_false_iff_not]
  refine ⟨⟨⟨⟨⟨?_, ?_⟩, ?_⟩, ?_⟩, ?_⟩, ?_⟩ <;>
    (rintro rfl; revert h; decide)

theorem digit_ne {ch : Char} (h : isDigitChar ch = true) (x : Char)
    (hx : isDigitChar x = false) : ch ≠ x := by
  rintro rfl
  rw [h] at hx
  cases hx

theorem digit_not_mem {l : List Char} (hl : ∀ ch ∈ l, isDigitChar ch = true)
    (x : Char) (hx : isDigitChar x = false) : x ∉ l := by
  intro hm
  exact digit_ne (hl x hm) x hx rfl

theorem takeWhile_all {p : Char → Bool} {l : List Char} (h : ∀ x ∈ l, p x = true) :
    l.takeWhile p = l := by
  induction l with
  | nil => rfl
  | cons x xs ih =>
    simp [List.takeWhile_cons, h x (by simp), ih (fun y hy => h y (by simp [hy]))]

theorem dropWhile_head_false {p : Char → Bool} {x : Char} {xs : List Char} (h : p x = false) :
    (x :: xs).dropWhile p = x :: xs := by
  simp [List.dropWhile_cons, h]

theorem natDecRepr_ne_nil (n : Nat) : natDecRepr n ≠ [] := natDecDigits_ne_nil n n

theorem digitsPart_digits {l : List Char} (hne : l ≠ [])
    (hd : ∀ ch ∈ l, isDigitChar ch = true) (neg : Bool) :
    digitsPart l neg
      = .int (if neg then -(digitsToNat l : Int) else (digitsToNat l : Int)) := by
  simp only [digitsPart]
  rw [takeWhile_all hd]
  simp only [List.isEmpty_eq_true]
  rw [if_neg hne]
  cases neg <;> simp

theorem jsParseInt_digits {l : List Char} (hne : l ≠ [])
    (hd : ∀ ch ∈ l, isDigitChar ch = true) :
    jsParseInt l = .int (digitsToNat l) := by
  obtain ⟨x, xs, rfl⟩ := List.exists_cons_of_ne_nil hne
  have hx := hd x (by simp)
  unfold jsParseInt
  rw [dropWhile_head_false (digit_not_space hx)]
  simp only [jsParseIntCore]
  rw [if_neg (digit_ne hx '-' (by decide)), if_neg (digit_ne hx '+' (by decide))]
  rw [digitsPart_digits (by simp) hd false]
  simp

theorem trim_all_digits {l : List Char} (hd : ∀ ch ∈ l, isDigitChar ch = true) :
    jsTrim l = l := by
  unfold jsTrim
  have h1 : l.dropWhile isJsSpace = l := by
    cases l with
    | nil => rfl
    | cons x xs => exact dropWhile_head_false (digit_not_space (hd x (by simp)))
  rw [h1]
  have h2 : l.reverse.dropWhile isJsSpace = l.reverse := by
    cases hr : l.reverse with
    | nil => rfl
    | cons x xs =>
      have hm : x ∈ l := by
        have : x ∈ l.reverse := by rw [hr]; simp
        simpa using this
      exact dropWhile_head_false (digit_not_space (hd x hm))
  rw [h2, List.reverse_reverse]

theorem jsParseInt_intDecRepr (n : Int) : jsParseInt (intDecRepr n) = .int n := by
  by_cases hn : n < 0
  · unfold intDecRepr
    rw [if_pos hn]
    unfold jsParseInt
    rw [dropWhile_head_false (by decide)]
    simp only [jsParseIntCore, if_pos]
    rw [digitsPart_digits (natDecRepr_ne_nil n.natAbs) (natDecRepr_digits n.natAbs) true]
    rw [digitsToNat_natDecRepr]
    simp only [if_pos, JSNum.int.injEq]
    omega
  · unfold intDecRepr
    rw [if_neg hn]
    have h := jsParseInt_digits (natDecRepr_ne_nil n.natAbs) (natDecRepr_digits n.natAbs)
    rw [h, digitsToNat_natDecRepr]
    congr 1
    omega

theorem render_int_digits (n : Int) (hn : 0 ≤ n) :
    ∀ ch ∈ (JSNum.int n).render, isDigitChar ch = true := by
  simp only [JSNum.render]
  unfold intDecRepr
  rw [if_neg (by omega)]
  exact natDecRepr_digits n.natAbs

theorem semicolon_not_mem_render (v : JSNum) : ';' ∉ v.render := by
  cases v with
  | nan => decide
  | int n =>
    simp only [JSNum.render]
    unfold intDecRepr
    by_cases hn : n < 0
    · rw [if_pos hn]
      intro hm
      rcases List.mem_cons.mp hm with h | h
      · cases h
      · exact digit_not_mem (natDecRepr_digits n.natAbs) ';' (by decide) h
    · rw [if_neg hn]
      exact digit_not_mem (natDecRepr_digits n.natAbs) ';' (by decide)

theorem eq_not_mem_render (v : JSNum) : '=' ∉ v.render := by
  cases v with
  | nan => decide
  | int n =>
    simp only [JSNum.render]
    unfold intDecRepr
    by_cases hn : n < 0
    · rw [if_pos hn]
      intro hm
      rcases List.mem_cons.mp hm with h | h
      · cases h
      · exact digit_not_mem (natDecRepr_digits n.natAbs) '=' (by decide) h
    · rw [if_neg hn]
      exact digit_not_mem (natDecRepr_digits n.natAbs) '=' (by decide)

theorem trim_render (v : JSNum) : jsTrim v.render = v.render := by
  cases v with
  | nan => decide
  | int n =>
    simp only [JSNum.render]
    unfold intDecRepr
    by_cases hn : n < 0
    · rw [if_pos hn]
      unfold jsTrim
      rw [dropWhile_head_false (by decide)]
      have hwd : ('-' :: natDecRepr n.natAbs).reverse.dropWhile isJsSpace
          = ('-' :: natDecRepr n.natAbs).reverse := by
        cases hr : ('-' :: natDecRepr n.natAbs).reverse with
        | nil => rfl
        | cons x xs =>
          have hm : x ∈ '-' :: natDecRepr n.natAbs := by
            have h2 : x ∈ ('-' :: natDecRepr n.natAbs).reverse := by rw [hr]; simp
            exact List.mem_reverse.mp h2
          have hx : isJsSpace x = false := by
            rcases List.mem_cons.mp hm with h | h
            · subst h; decide
            · exact digit_not_space (natDecRepr_digits n.natAbs x h)
          exact dropWhile_head_false hx
      rw [hwd, List.reverse_reverse]
    · rw [if_neg hn]
      exact trim_all_digits (natDecRepr_digits n.natAbs)

theorem jsParseInt_render (v : JSNum) : jsParseInt v.render = v := by
  cases v with
  | nan => decide
  | int n => exact jsParseInt_intDecRepr n

theorem parseAttr_flag (o : CookieOptions) :
    parseAttr o (jstr "Secure") = .ok { o with secure := some true } ∧
    parseAttr o (jstr "HttpOnly") = .ok { o with httpOnly := some true } := ⟨rfl, rfl⟩

theorem parseAttr_keyval_split (keyEq : JStr) (key d : JStr)
    (hk : keyEq = key ++ ['=']) (hkne : '=' ∉ key) (hdne : '=' ∉ d) :
    (keyEq ++ d).splitOn '=' = key :: [d] := by
  subst hk
  rw [List.append_assoc, List.singleton_append, splitOn_append_cons _ hkne,
      splitOn_eq_single hdne]

theorem parseAttr_maxAge (o : CookieOptions) (v : JSNum) :
    parseAttr o (jstr "Max-Age=" ++ v.render) = .ok { o with maxAge := some v } := by
  unfold parseAttr
  rw [parseAttr_keyval_split _ (jstr "Max-Age") _ (by decide) (by decide)
      (eq_not_mem_render v)]
  simp only [List.map_cons, List.map_nil, List.head?_cons]
  rw [trim_render v, show jsTrim (jstr "Max-Age") = jstr "Max-Age" from by decide]
  simp only [List.getElem?_cons_succ, List.getElem?_cons_zero]
  rw [show toLowerChars (jstr "Max-Age") = jstr "max-age" from by decide]
  rw [if_neg (by decide), if_pos rfl]
  simp [jsParseIntOpt, jsParseInt_render v]

theorem parseAttr_domain (o : CookieOptions) (d : JStr) (hdne : '=' ∉ d)
    (ht : jsTrim d = d) :
    parseAttr o (jstr "Domain=" ++ d) = .ok { o with domain := some d } := by
  unfold parseAttr
  rw [parseAttr_keyval_split _ (jstr "Domain") _ (by decide) (by decide) hdne]
  simp only [List.map_cons, List.map_nil, List.head?_cons]
  rw [ht, show jsTrim (jstr "Domain") = jstr "Domain" from by decide]
  simp only [List.getElem?_cons_succ, List.getElem?_cons_zero]
  rw [show toLowerChars (jstr "Domain") = jstr "domain" from by decide]
  rw [if_neg (by decide), if_neg (by decide), if_pos rfl]

theorem parseAttr_path (o : CookieOptions) (d : JStr) (hdne : '=' ∉ d)
    (ht : jsTrim d = d) :
    parseAttr o (jstr "Path=" ++ d) = .ok { o with path := some d } := by
  unfold parseAttr
  rw [parseAttr_keyval_split _ (jstr "Path") _ (by decide) (by decide) hdne]
  simp only [List.map_cons, List.map_nil, List.head?_cons]
  rw [ht, show jsTrim (jstr "Path") = jstr "Path" from by decide]
  simp only [List.getElem?_cons_succ, List.getElem?_cons_zero]
  rw [show toLowerChars (jstr "Path") = jstr "path" from by decide]
  rw [if_neg (by decide), if_neg (by decide), if_neg (by decide), if_pos rfl]

theorem parseAttr_sameSite (o : CookieOptions) (d : JStr) (hdne : '=' ∉ d)
    (ht : jsTrim d = d) :
    parseAttr o (jstr "SameSite=" ++ d) = .ok { o with sameSite := some d } := by
  unfold parseAttr
  rw [parseAttr_keyval_split _ (jstr "SameSite") _ (by decide) (by decide) hdne]
  simp only [List.map_cons, List.map_nil, List.head?_cons]
  rw [ht, show jsTrim (jstr "SameSite") = jstr "SameSite" from by decide]
  simp only [List.getElem?_cons_succ, List.getElem?_cons_zero]
  rw [show toLowerChars (jstr "SameSite") = jstr "samesite" from by decide]
  rw [if_neg (by decide), if_neg (by decide), if_neg (by decide), if_neg (by decide),
      if_neg (by decide), if_neg (by decide), if_pos rfl]

theorem parseAttrs_append {o o' : CookieOptions} {l1 : List JStr} (l2 : List JStr)
    (h : parseAttrs o l1 = .ok o') :
    parseAttrs o (l1 ++ l2) = parseAttrs o' l2 := by
  induction l1 generalizing o with
  | nil =>
    simp only [parseAttrs] at h
    cases h
    rfl
  | cons s rest ih =>
    simp only [parseAttrs, List.cons_append] at h ⊢
    cases hs : parseAttr o s with
    | error e => rw [hs] at h; cases h
    | ok o2 =>
      rw [hs] at h
      exact ih h

/-- The attribute segments `toString` emits after the `name=value` head, in
emission order (for a cookie with no `expires`). -/
def attrSegs (c : CookieObject) : List JStr :=
  (match c.maxAge with | some v => [jstr "Max-Age=" ++ v.render] | none => [])
    ++ (if truthyStr c.domain then [jstr "Domain=" ++ c.domain.getD []] else [])
    ++ (if truthyStr c.path then [jstr "Path=" ++ c.path.getD []] else [])
    ++ (if c.secure then [jstr "Secure"] else [])
    ++ (if c.httpOnly then [jstr "HttpOnly"] else [])
    ++ (if truthyStr c.sameSite then [jstr "SameSite=" ++ c.sameSite.getD []] else [])

theorem truthyStr_some_ne {d : JStr} (h : d ≠ []) : truthyStr (some d) = true := by
  cases d with
  | nil => exact absurd rfl h
  | cons x xs => rfl

theorem toString_attrSegs (c : CookieObject) (hexp : c.expires = none) :
    CookieObject.toString c
      = jsTemplate c.name ++ '=' :: jsTemplate c.value
          ++ ((attrSegs c).map (';' :: ·)).flatten := by
  unfold CookieObject.toString attrSegs
  rw [hexp]
  cases hma : c.maxAge <;> cases hsec : c.secure <;> cases hho : c.httpOnly <;>
    cases hdm : truthyStr c.domain <;> cases hpt : truthyStr c.path <;>
      cases hss : truthyStr c.sameSite <;>
        simp [show jstr ";Max-Age=" = ';' :: jstr "Max-Age=" from rfl,
          show jstr ";Domain=" = ';' :: jstr "Domain=" from rfl,
          show jstr ";Path=" = ';' :: jstr "Path=" from rfl,
          show jstr ";Secure" = ';' :: jstr "Secure" from rfl,
          show jstr ";HttpOnly" = ';' :: jstr "HttpOnly" from rfl,
          show jstr ";SameSite=" = ';' :: jstr "SameSite=" from rfl]

theorem parseAttrs_opt_maxAge (o : CookieOptions) (ma : Option JSNum) (rest : List JStr) :
    parseAttrs o
        ((match ma with | some v => [jstr "Max-Age=" ++ v.render] | none => []) ++ rest)
      = parseAttrs { o with maxAge := ma.elim o.maxAge some } rest := by
  cases ma with
  | none => rfl
  | some v =>
    simp only [List.singleton_append, parseAttrs]
    rw [parseAttr_maxAge o v]
    rfl

theorem parseAttrs_opt_domain (o : CookieOptions) (dm : Option JStr) (rest : List JStr)
    (hw : OptWireSafe dm) :
    parseAttrs o ((if truthyStr dm then [jstr "Domain=" ++ dm.getD []] else []) ++ rest)
      = parseAttrs { o with domain := dm.elim o.domain some } rest := by
  cases dm with
  | none => rfl
  | some d =>
    obtain ⟨hne, _, he, ht⟩ := hw
    rw [if_pos (truthyStr_some_ne hne)]
    simp only [Option.getD_some, List.singleton_append, parseAttrs]
    rw [parseAttr_domain o d he ht]
    rfl

theorem parseAttrs_opt_path (o : CookieOptions) (pt : Option JStr) (rest : List JStr)
    (hw : OptWireSafe pt) :
    parseAttrs o ((if truthyStr pt then [jstr "Path=" ++ pt.getD []] else []) ++ rest)
      = parseAttrs { o with path := pt.elim o.path some } rest := by
  cases pt with
  | none => rfl
  | some d =>
    obtain ⟨hne, _, he, ht⟩ := hw
    rw [if_pos (truthyStr_some_ne hne)]
    simp only [Option.getD_some, List.singleton_append, parseAttrs]
    rw [parseAttr_path o d he ht]
    rfl

theorem parseAttrs_opt_sameSite (o : CookieOptions) (ss : Option JStr) (rest : List JStr)
    (hw : OptWireSafe ss) :
    parseAttrs o ((if truthyStr ss then [jstr "SameSite=" ++ ss.getD []] else []) ++ rest)
      = parseAttrs { o with sameSite := ss.elim o.sameSite some } rest := by
  cases ss with
  | none => rfl
  | some d =>
    obtain ⟨hne, _, he, ht⟩ := hw
    rw [if_pos (truthyStr_some_ne hne)]
    simp only [Option.getD_some, List.singleton_append, parseAttrs]
    rw [parseAttr_sameSite o d he ht]
    rfl

theorem parseAttrs_opt_secure (o : CookieOptions) (b : Bool) (rest : List JStr) :
    parseAttrs o ((if b then [jstr "Secure"] else []) ++ rest)
      = parseAttrs { o with secure := if b then some true else o.secure } rest := by
  cases b with
  | false => rfl
  | true =>
    simp only [if_pos, List.singleton_append, parseAttrs]
    rw [(parseAttr_flag o).1]
    rfl

theorem parseAttrs_opt_httpOnly (o : CookieOptions) (b : Bool) (rest : List JStr) :
    parseAttrs o ((if b then [jstr "HttpOnly"] else []) ++ rest)
      = parseAttrs { o with httpOnly := if b then some true else o.httpOnly } rest := by
  cases b with
  | false => rfl
  | true =>
    simp only [if_pos, List.singleton_append, parseAttrs]
    rw [(parseAttr_flag o).2]
    rfl

theorem mem_ite_singleton {p : Prop} [Decidable p] {x s : JStr}
    (h : s ∈ (if p then [x] else ([] : List JStr))) : p ∧ s = x := by
  by_cases hp : p
  · rw [if_pos hp] at h
    simp only [List.mem_singleton] at h
    exact ⟨hp, h⟩
  · rw [if_neg hp] at h
    cases h

theorem not_mem_append {c : Char} {a b : JStr} (ha : c ∉ a) (hb : c ∉ b) : c ∉ a ++ b := by
  intro hm
  rcases List.mem_append.mp hm with h | h
  · exact ha h
  · exact hb h

theorem attrSegs_no_semicolon (c : CookieObject)
    (hdm : OptWireSafe c.domain) (hpt : OptWireSafe c.path) (hss : OptWireSafe c.sameSite) :
    ∀ s ∈ attrSegs c, ';' ∉ s := by
  intro s hs
  unfold attrSegs at hs
  simp only [List.mem_append] at hs
  rcases hs with ((((h | h) | h) | h) | h) | h
  · cases hma : c.maxAge with
    | none => rw [hma] at h; cases h
    | some v =>
      rw [hma] at h
      simp only [List.mem_singleton] at h
      subst h
      exact not_mem_append (by decide) (semicolon_not_mem_render v)
  · obtain ⟨htr, rfl⟩ := mem_ite_singleton h
    cases hd : c.domain with
    | none => rw [hd] at htr; cases htr
    | some d =>
      rw [hd] at hdm
      obtain ⟨_, hsemi, _, _⟩ := hdm
      exact not_mem_append (by decide) (by simpa using hsemi)
  · obtain ⟨htr, rfl⟩ := mem_ite_singleton h
    cases hd : c.path with
    | none => rw [hd] at htr; cases htr
    | some d =>
      rw [hd] at hpt
      obtain ⟨_, hsemi, _, _⟩ := hpt
      exact not_mem_append (by decide) (by simpa using hsemi)
  · obtain ⟨_, rfl⟩ := mem_ite_singleton h
    decide
  · obtain ⟨_, rfl⟩ := mem_ite_singleton h
    decide
  · obtain ⟨htr, rfl⟩ := mem_ite_singleton h
    cases hd : c.sameSite with
    | none => rw [hd] at htr; cases htr
    | some d =>
      rw [hd] at hss
      obtain ⟨_, hsemi, _, _⟩ := hss
      exact not_mem_append (by decide) (by simpa using hsemi)

theorem parse_shape (nm vl : JStr) (rest : List JStr)
    (hnms : ';' ∉ nm) (hnme : '=' ∉ nm) (hvls : ';' ∉ vl) (hvle : '=' ∉ vl)
    (hrest : ∀ s ∈ rest, ';' ∉ s) :
    CookieObject.parse ((nm ++ '=' :: vl) ++ (rest.map (';' :: ·)).flatten)
      = (match parseAttrs { name := some (jsTrim nm), value := some (jsTrim vl) } rest with
         | .error e => .error e
         | .ok o => .ok (mkCookieObject o)) := by
  unfold CookieObject.parse
  have hfirst : ';' ∉ nm ++ '=' :: vl := by
    intro hm
    rcases List.mem_append.mp hm with h | h
    · exact hnms h
    · rcases List.mem_cons.mp h with h | h
      · cases h
      · exact hvls h
  rw [splitOn_concat _ rest hfirst hrest]
  simp only [splitOn_append_cons vl hnme, splitOn_eq_single hvle, List.map_cons,
    List.map_nil, List.head?_cons, List.getElem?_cons_succ, List.getElem?_cons_zero]

/-- C6 (amended): for cookie records whose name and value are wire-safe (no
`;`, no `=`, trim-stable), whose optional string attributes are absent or
non-empty and wire-safe, and whose `expires` is absent,
`parse (toString c)` returns exactly `c` — name, value, domain, path,
secure, httpOnly, sameSite and maxAge all round-trip. -/
theorem c6_roundtrip (nm vl : JStr) (dm pt ss : Option JStr) (ma : Option JSNum)
    (sec ho : Bool) (hnm : WireSafe nm) (hvl : WireSafe vl)
    (hdm : OptWireSafe dm) (hpt : OptWireSafe pt) (hss : OptWireSafe ss) :
    CookieObject.parse (CookieObject.toString
        ⟨some nm, some vl, none, ma, dm, pt, sec, ho, ss⟩)
      = .ok ⟨some nm, some vl, none, ma, dm, pt, sec, ho, ss⟩ := by
  obtain ⟨hnms, hnme, hnmt⟩ := hnm
  obtain ⟨hvls, hvle, hvlt⟩ := hvl
  rw [toString_attrSegs ⟨some nm, some vl, none, ma, dm, pt, sec, ho, ss⟩ rfl]
  have hshape : jsTemplate (CookieObject.name ⟨some nm, some vl, none, ma, dm, pt, sec, ho, ss⟩)
        ++ '=' :: jsTemplate (CookieObject.value ⟨some nm, some vl, none, ma, dm, pt, sec, ho, ss⟩)
        ++ ((attrSegs ⟨some nm, some vl, none, ma, dm, pt, sec, ho, ss⟩).map (';' :: ·)).flatten
      = (nm ++ '=' :: vl)
        ++ ((attrSegs ⟨some nm, some vl, none, ma, dm, pt, sec, ho, ss⟩).map (';' :: ·)).flatten := by
    simp [jsTemplate]
  rw [hshape]
  rw [parse_shape nm vl _ hnms hnme hvls hvle
      (attrSegs_no_semicolon ⟨some nm, some vl, none, ma, dm, pt, sec, ho, ss⟩ hdm hpt hss)]
  rw [hnmt, hvlt]
  have hsegs : attrSegs ⟨some nm, some vl, none, ma, dm, pt, sec, ho, ss⟩
      = (match ma with | some v => [jstr "Max-Age=" ++ v.render] | none => [])
        ++ ((if truthyStr dm then [jstr "Domain=" ++ dm.getD []] else [])
        ++ ((if truthyStr pt then [jstr "Path=" ++ pt.getD []] else [])
        ++ ((if sec then [jstr "Secure"] else [])
        ++ ((if ho then [jstr "HttpOnly"] else [])
        ++ ((if truthyStr ss then [jstr "SameSite=" ++ ss.getD []] else []) ++ []))))) := by
    simp [attrSegs, List.append_assoc]
  rw [hsegs]
  rw [parseAttrs_opt_maxAge, parseAttrs_opt_domain _ _ _ hdm, parseAttrs_opt_path _ _ _ hpt,
      parseAttrs_opt_secure, parseAttrs_opt_httpOnly, parseAttrs_opt_sameSite _ _ _ hss]
  simp only [parseAttrs]
  cases ma <;> cases dm <;> cases pt <;> cases ss <;> cases sec <;> cases ho <;> rfl

/-- Witness for the amended C6 round-trip at a concrete record. -/
theorem c6_roundtrip_witness :
    CookieObject.parse (CookieObject.toString
        ⟨some (jstr "sid"), some (jstr "xyz"), none, some (.int 3600),
         some (jstr "example.com"), some (jstr "/"), true, true, some (jstr "lax")⟩)
      = .ok ⟨some (jstr "sid"), some (jstr "xyz"), none, some (.int 3600),
         some (jstr "example.com"), some (jstr "/"), true, true, some (jstr "lax")⟩ :=
  c6_roundtrip _ _ _ _ _ _ _ _ (by decide) (by decide) (by decide) (by decide) (by decide)

/-- The record that refutes C6 as universally stated: its value contains a
`;`, which the wire format cannot carry. -/
def c6Bad : CookieObject :=
  ⟨some (jstr "a"), some (jstr "b;c"), none, none, none, none, false, false, none⟩

/-- C6 counterexample: serializing a record whose value contains `;` and
parsing it back yields value `b`, not the original `b;c` — the claim's
round-trip equality fails on the `value` attribute. -/
theorem c6_counterexample :
    (CookieObject.parse (CookieObject.toString c6Bad)).toOption.map CookieObject.value
        = some (some (jstr "b"))
      ∧ c6Bad.value = some (jstr "b;c") ∧ jstr "b" ≠ jstr "b;c" := by
  decide

/-- C7 counterexample: on the wire string `sid=a=b` the parser yields value
`a`, not `a=b` — the first segment is split on every `=` and only the first
two pieces are kept, so text after a second `=` is dropped. -/
theorem c7_counterexample :
    (CookieObject.parse (jstr "sid=a=b")).toOption.map CookieObject.value
        = some (some (jstr "a"))
      ∧ jstr "a" ≠ jstr "a=b" := by
  decide

/-- C7 (amended): the first `;`-segment is split on `=` and only the first
two pieces are kept — the name is the first piece trimmed, the value the
second piece trimmed, and any text from a second `=` onwards is discarded. -/
theorem c7_first_segment_truncates (nm v1 v2 : JStr)
    (hnm : WireSafe nm) (hv1 : WireSafe v1) (hv2 : ';' ∉ v2) :
    CookieObject.parse (nm ++ '=' :: (v1 ++ '=' :: v2))
      = .ok (mkCookieObject { name := some nm, value := some v1 }) := by
  obtain ⟨hnms, hnme, hnmt⟩ := hnm
  obtain ⟨hv1s, hv1e, hv1t⟩ := hv1
  unfold CookieObject.parse
  have hwhole : ';' ∉ nm ++ '=' :: (v1 ++ '=' :: v2) := by
    intro hm
    rcases List.mem_append.mp hm with h | h
    · exact hnms h
    · rcases List.mem_cons.mp h with h | h
      · cases h
      · rcases List.mem_append.mp h with h | h
        · exact hv1s h
        · rcases List.mem_cons.mp h with h | h
          · cases h
          · exact hv2 h
  rw [splitOn_eq_single hwhole]
  simp only [splitOn_append_cons _ hnme, splitOn_append_cons _ hv1e, List.map_cons,
    List.head?_cons, List.getElem?_cons_succ, List.getElem?_cons_zero]
  rw [hnmt, hv1t]
  rfl

/-- Witness for the amended C7 at the concrete wire string `sid=a=b`. -/
theorem c7_first_segment_truncates_witness :
    CookieObject.parse (jstr "sid" ++ '=' :: (jstr "a" ++ '=' :: jstr "b"))
      = .ok (mkCookieObject { name := some (jstr "sid"), value := some (jstr "a") }) :=
  c7_first_segment_truncates _ _ _ (by decide) (by decide) (by decide)

theorem parseAttr_ok (o : CookieOptions) (seg : JStr) :
    ∃ o', parseAttr o seg = .ok o' ∧
      (keyOfSeg seg ≠ jstr "secure" → o'.secure = o.secure) ∧
      (keyOfSeg seg ≠ jstr "httponly" → o'.httpOnly = o.httpOnly) := by
  cases hsp : seg.splitOn '=' with
  | nil => exact absurd hsp (splitOn_ne_nil '=' seg)
  | cons k rest =>
    have hkey : keyOfSeg seg = toLowerChars (jsTrim k) := by
      unfold keyOfSeg
      rw [hsp]
      rfl
    unfold parseAttr
    rw [hsp]
    simp only [List.map_cons, List.head?_cons]
    split_ifs with h1 h2 h3 h4 h5 h6 h7
    · exact ⟨_, rfl, fun _ => rfl, fun _ => rfl⟩
    · exact ⟨_, rfl, fun _ => rfl, fun _ => rfl⟩
    · exact ⟨_, rfl, fun _ => rfl, fun _ => rfl⟩
    · exact ⟨_, rfl, fun _ => rfl, fun _ => rfl⟩
    · exact ⟨_, rfl, fun hne => absurd (hkey.trans h5) hne, fun _ => rfl⟩
    · exact ⟨_, rfl, fun _ => rfl, fun hne => absurd (hkey.trans h6) hne⟩
    · exact ⟨_, rfl, fun _ => rfl, fun _ => rfl⟩
    · exact ⟨_, rfl, fun _ => rfl, fun _ => rfl⟩

theorem parseAttrs_ok (segs : List JStr) : ∀ o : CookieOptions,
    ∃ o', parseAttrs o segs = .ok o' ∧
      ((∀ seg ∈ segs, keyOfSeg seg ≠ jstr "secure") → o'.secure = o.secure) ∧
      ((∀ seg ∈ segs, keyOfSeg seg ≠ jstr "httponly") → o'.httpOnly = o.httpOnly) := by
  induction segs with
  | nil => exact fun o => ⟨o, rfl, fun _ => rfl, fun _ => rfl⟩
  | cons s rest ih =>
    intro o
    obtain ⟨o1, h1, hs1, hh1⟩ := parseAttr_ok o s
    obtain ⟨o2, h2, hs2, hh2⟩ := ih o1
    refine ⟨o2, ?_, ?_, ?_⟩
    · simp only [parseAttrs]
      rw [h1]
      exact h2
    · intro hall
      rw [hs2 (fun seg hm => hall seg (by simp [hm]))]
      exact hs1 (hall s (by simp))
    · intro hall
      rw [hh2 (fun seg hm => hall seg (by simp [hm]))]
      exact hh1 (hall s (by simp))

theorem parse_cons (first : JStr) (rest : List JStr) (s : JStr)
    (hsp : s.splitOn ';' = first :: rest) :
    CookieObject.parse s
      = (match parseAttrs { name := ((first.splitOn '=').map jsTrim).head?,
                            value := ((first.splitOn '=').map jsTrim)[1]? } rest with
         | .error e => .error e
         | .ok o => .ok (mkCookieObject o)) := by
  unfold CookieObject.parse
  rw [hsp]

/-- C8: `CookieObject.parse` is total — every wire string (empty strings,
segments without `=`, empty segments included) parses to an `ok` cookie
record — and the `secure` and `httpOnly` flags are booleans that default to
`false` whenever no segment carries the corresponding attribute key. -/
theorem c8_parse_total (s : JStr) :
    ∃ c, CookieObject.parse s = .ok c ∧
      ((∀ seg ∈ (s.splitOn ';').tail, keyOfSeg seg ≠ jstr "secure") → c.secure = false) ∧
      ((∀ seg ∈ (s.splitOn ';').tail, keyOfSeg seg ≠ jstr "httponly") → c.httpOnly = false) := by
  cases hsp : s.splitOn ';' with
  | nil => exact absurd hsp (splitOn_ne_nil ';' s)
  | cons first rest =>
    obtain ⟨o', hok, hsec, hho⟩ := parseAttrs_ok rest
      { name := ((first.splitOn '=').map jsTrim).head?,
        value := ((first.splitOn '=').map jsTrim)[1]? }
    refine ⟨mkCookieObject o', ?_, ?_, ?_⟩
    · rw [parse_cons first rest s hsp, hok]
    · intro hall
      have h := hsec hall
      simp only [mkCookieObject, h]
      rfl
    · intro hall
      have h := hho hall
      simp only [mkCookieObject, h]
      rfl

/-- Witness for C8 at a concrete wire string with no flag attributes. -/
theorem c8_parse_total_witness :
    ∃ c, CookieObject.parse (jstr "k=v; Path=/") = .ok c
      ∧ c.secure = false ∧ c.httpOnly = false := by
  obtain ⟨c, hok, hsec, hho⟩ := c8_parse_total (jstr "k=v; Path=/")
  exact ⟨c, hok, hsec (by decide), hho (by decide)⟩

theorem allowOriginScan_eq (entries : List OriginEntry) (og : Option JStr) (h : Headers) :
    allowOriginScan entries og h
      = match scanAllowOrigin entries og with
        | none => h
        | some v => hSet h (jstr "access-control-allow-origin") v := by
  induction entries with
  | nil => rfl
  | cons e rest ih =>
    cases e with
    | star => rfl
    | str s =>
      simp only [allowOriginScan, scanAllowOrigin]
      split_ifs with hmatch
      · rfl
      · exact ih
    | pattern t =>
      simp only [allowOriginScan, scanAllowOrigin]
      split_ifs with hmatch
      · rfl
      · exact ih

theorem scanAllowOrigin_cases (entries : List OriginEntry) (og : Option JStr) :
    scanAllowOrigin entries og = some (some (jstr "*"))
      ∨ scanAllowOrigin entries og = some og
      ∨ scanAllowOrigin entries og = none := by
  induction entries with
  | nil => right; right; rfl
  | cons e rest ih =>
    cases e with
    | star => left; rfl
    | str s =>
      simp only [scanAllowOrigin]
      split_ifs with hmatch
      · right; left; rfl
      · exact ih
    | pattern t =>
      simp only [scanAllowOrigin]
      split_ifs with hmatch
      · right; left; rfl
      · exact ih

theorem allowOriginScan_frame (entries : List OriginEntry) (og : Option JStr) (h : Headers)
    (k : JStr) (hk : k ≠ jstr "access-control-allow-origin") :
    hGetEntry (allowOriginScan entries og h) k = hGetEntry h k := by
  rw [allowOriginScan_eq]
  cases scanAllowOrigin entries og with
  | none => rfl
  | some v => exact hGetEntry_hSet_ne _ _ _ _ hk

theorem hLookup_allowOriginScan (entries : List OriginEntry) (og : Option JStr) (h : Headers)
    (hinit : hGetEntry h (jstr "access-control-allow-origin") = none) :
    hLookup (allowOriginScan entries og h) (jstr "access-control-allow-origin")
      = (scanAllowOrigin entries og).getD none := by
  rw [allowOriginScan_eq]
  cases scanAllowOrigin entries og with
  | none => simp [hLookup, hinit]
  | some v => simp [hLookup_hSet_same]

theorem hHasKey_of_lookup {h : Headers} {k : JStr} {v : JStr}
    (hv : hLookup h k = some v) : hHasKey h k = true := by
  unfold hHasKey
  unfold hLookup at hv
  cases hge : hGetEntry h k with
  | none => rw [hge] at hv; cases hv
  | some w => simp

theorem aco_ne_acc :
    jstr "access-control-allow-origin" ≠ jstr "access-control-allow-credentials" := by decide

theorem aco_ne_acm :
    jstr "access-control-allow-origin" ≠ jstr "access-control-allow-methods" := by decide

theorem aco_ne_ach :
    jstr "access-control-allow-origin" ≠ jstr "access-control-allow-headers" := by decide

theorem aco_ne_max :
    jstr "access-control-allow-origin" ≠ jstr "access-control-max-age" := by decide

theorem aco_ne_aeh :
    jstr "access-control-allow-origin" ≠ jstr "access-control-expose-headers" := by decide

/-- C2: for every configuration and request carrying an Origin header (and a
response with no allow-origin header yet), the resulting
`access-control-allow-origin` header equals the first-match scan of the
allow-list (`*` when none is configured, untouched when no entry matches),
and that outcome is always the literal `*`, the echoed Origin, or absent. -/
theorem c2_cors_allow_origin (opts : CORSMiddlewareOptions) (req : Req) (res : Res)
    (og : JStr) (hog : hLookup req.headers (jstr "origin") = some og)
    (hinit : hGetEntry res.headers (jstr "access-control-allow-origin") = none) :
    hLookup (executeCORSMiddleware opts req res).1.headers
        (jstr "access-control-allow-origin")
      = (corsOriginResult opts.allowOrigin (some og)).getD none
    ∧ ((corsOriginResult opts.allowOrigin (some og)).getD none = some (jstr "*")
       ∨ (corsOriginResult opts.allowOrigin (some og)).getD none = some og
       ∨ (corsOriginResult opts.allowOrigin (some og)).getD none = none) := by
  constructor
  · have hkey := hHasKey_of_lookup hog
    obtain ⟨ao, ac, am, ah, ma, eh⟩ := opts
    unfold executeCORSMiddleware
    rw [hkey, hog]
    by_cases hm : req.method = jstr "OPTIONS" <;>
      cases ao <;> cases ac <;> cases am <;> cases ah <;> cases ma <;> cases eh <;>
        (try simp [hm, corsOriginResult, hLookup_hSet_ne, hLookup_hSet_same,
          hLookup_allowOriginScan _ _ _ hinit, aco_ne_acc, aco_ne_acm, aco_ne_ach,
          aco_ne_max, aco_ne_aeh]) <;>
        (split_ifs <;>
          simp [hLookup_hSet_ne, hLookup_hSet_same, hLookup_allowOriginScan _ _ _ hinit,
            aco_ne_acc, aco_ne_acm, aco_ne_ach, aco_ne_max, aco_ne_aeh, corsOriginResult])
  · cases hao : opts.allowOrigin with
    | none => left; rfl
    | some entries =>
      rcases scanAllowOrigin_cases entries (some og) with h | h | h <;>
        simp [corsOriginResult, h]

/-- Witness for C2: a lone case-insensitive string entry matches and echoes
the request Origin verbatim. -/
theorem c2_cors_allow_origin_witness :
    hLookup (executeCORSMiddleware
        ⟨some [OriginEntry.str (jstr "https://EXAMPLE.com")], false, none, none, none, none⟩
        ⟨jstr "GET", [(jstr "origin", some (jstr "https://example.com"))]⟩
        ⟨0, [], false, []⟩).1.headers (jstr "access-control-allow-origin")
      = (corsOriginResult (some [OriginEntry.str (jstr "https://EXAMPLE.com")])
          (some (jstr "https://example.com"))).getD none
    ∧ ((corsOriginResult (some [OriginEntry.str (jstr "https://EXAMPLE.com")])
          (some (jstr "https://example.com"))).getD none = some (jstr "*")
       ∨ (corsOriginResult (some [OriginEntry.str (jstr "https://EXAMPLE.com")])
          (some (jstr "https://example.com"))).getD none = some (jstr "https://example.com")
       ∨ (corsOriginResult (some [OriginEntry.str (jstr "https://EXAMPLE.com")])
          (some (jstr "https://example.com"))).getD none = none) :=
  c2_cors_allow_origin
    ⟨some [OriginEntry.str (jstr "https://EXAMPLE.com")], false, none, none, none, none⟩
    ⟨jstr "GET", [(jstr "origin", some (jstr "https://example.com"))]⟩
    ⟨0, [], false, []⟩ (jstr "https://example.com") (by decide) (by decide)

/-- C3: every request with method `OPTIONS` and an Origin header gets status
200, the literal body `OK` written (and the stream ended), and the pipeline
signal `end` — under every configuration. -/
theorem c3_preflight (opts : CORSMiddlewareOptions) (req : Req) (res : Res)
    (hkey : hHasKey req.headers (jstr "origin") = true)
    (hm : req.method = jstr "OPTIONS") :
    (executeCORSMiddleware opts req res).1.status = 200
      ∧ (executeCORSMiddleware opts req res).1.stream
          = res.stream ++ [StreamEv.write (jstr "OK"), StreamEv.ended]
      ∧ (executeCORSMiddleware opts req res).2 = .end' := by
  unfold executeCORSMiddleware
  rw [hkey, hm]
  simp

/-- Witness for C3 at a concrete preflight request. -/
theorem c3_preflight_witness :
    (executeCORSMiddleware ⟨none, true, none, none, some 5, none⟩
        ⟨jstr "OPTIONS", [(jstr "origin", some (jstr "https://example.com"))]⟩
        ⟨0, [], false, []⟩).1.status = 200
      ∧ (executeCORSMiddleware ⟨none, true, none, none, some 5, none⟩
          ⟨jstr "OPTIONS", [(jstr "origin", some (jstr "https://example.com"))]⟩
          ⟨0, [], false, []⟩).1.stream
        = ([] : List StreamEv) ++ [StreamEv.write (jstr "OK"), StreamEv.ended]
      ∧ (executeCORSMiddleware ⟨none, true, none, none, some 5, none⟩
          ⟨jstr "OPTIONS", [(jstr "origin", some (jstr "https://example.com"))]⟩
          ⟨0, [], false, []⟩).2 = .end' :=
  c3_preflight ⟨none, true, none, none, some 5, none⟩
    ⟨jstr "OPTIONS", [(jstr "origin", some (jstr "https://example.com"))]⟩
    ⟨0, [], false, []⟩ (by decide) (by decide)

/-- C9: a non-`OPTIONS` request with an Origin header continues the pipeline
and leaves status and stream untouched; every header other than
allow-origin, allow-credentials and expose-headers keeps its entry. -/
theorem c9_simple_cors_frame (opts : CORSMiddlewareOptions) (req : Req) (res : Res) (og : JStr)
    (hog : hLookup req.headers (jstr "origin") = some og)
    (hm : req.method ≠ jstr "OPTIONS") :
    (executeCORSMiddleware opts req res).2 = .continue'
      ∧ (executeCORSMiddleware opts req res).1.status = res.status
      ∧ (executeCORSMiddleware opts req res).1.stream = res.stream
      ∧ ∀ k : JStr, k ≠ jstr "access-control-allow-origin"
          → k ≠ jstr "access-control-allow-credentials"
          → k ≠ jstr "access-control-expose-headers"
          → hGetEntry (executeCORSMiddleware opts req res).1.headers k
              = hGetEntry res.headers k := by
  have hkey := hHasKey_of_lookup hog
  obtain ⟨ao, ac, am, ah, ma, eh⟩ := opts
  unfold executeCORSMiddleware
  rw [hkey]
  refine ⟨?_, ?_, ?_, ?_⟩
  · simp [hm]
  · simp [hm]
  · simp [hm]
  · intro k hk1 hk2 hk3
    cases ao <;> cases ac <;> cases eh <;>
      simp [hm, hGetEntry_hSet_ne, allowOriginScan_frame _ _ _ _ hk1, hk1, hk2, hk3]

/-- Witness for C9 at a concrete simple-CORS request, checking the
`content-type` entry is untouched. -/
theorem c9_simple_cors_frame_witness :
    (executeCORSMiddleware ⟨none, true, none, none, none, some [jstr "x-id"]⟩
        ⟨jstr "GET", [(jstr "origin", some (jstr "https://example.com"))]⟩
        ⟨200, [(jstr "content-type", some (jstr "text/html"))], false, []⟩).2 = .continue'
      ∧ (executeCORSMiddleware ⟨none, true, none, none, none, some [jstr "x-id"]⟩
          ⟨jstr "GET", [(jstr "origin", some (jstr "https://example.com"))]⟩
          ⟨200, [(jstr "content-type", some (jstr "text/html"))], false, []⟩).1.status = 200
      ∧ (executeCORSMiddleware ⟨none, true, none, none, none, some [jstr "x-id"]⟩
          ⟨jstr "GET", [(jstr "origin", some (jstr "https://example.com"))]⟩
          ⟨200, [(jstr "content-type", some (jstr "text/html"))], false, []⟩).1.stream
          = ([] : List StreamEv)
      ∧ hGetEntry (executeCORSMiddleware ⟨none, true, none, none, none, some [jstr "x-id"]⟩
          ⟨jstr "GET", [(jstr "origin", some (jstr "https://example.com"))]⟩
          ⟨200, [(jstr "content-type", some (jstr "text/html"))], false, []⟩).1.headers
          (jstr "content-type")
        = hGetEntry [(jstr "content-type", some (jstr "text/html"))] (jstr "content-type") := by
  have h := c9_simple_cors_frame ⟨none, true, none, none, none, some [jstr "x-id"]⟩
    ⟨jstr "GET", [(jstr "origin", some (jstr "https://example.com"))]⟩
    ⟨200, [(jstr "content-type", some (jstr "text/html"))], false, []⟩
    (jstr "https://example.com") (by decide) (by decide)
  exact ⟨h.1, h.2.1, h.2.2.1,
    h.2.2.2 (jstr "content-type") (by decide) (by decide) (by decide)⟩

theorem parseCharsetDefaulted_frame (opts : BufferEncoderOptions) (m : TranscoderM)
    (ct : Option JStr) :
    (parseCharsetDefaulted opts m ct).2.t.hasSetJSON = m.t.hasSetJSON
      ∧ (parseCharsetDefaulted opts m ct).2.t.pendingChunks = m.t.pendingChunks
      ∧ (parseCharsetDefaulted opts m ct).2.t.encoding = m.t.encoding
      ∧ (parseCharsetDefaulted opts m ct).2.endCalled = m.endCalled
      ∧ (parseCharsetDefaulted opts m ct).2.dest = m.dest
      ∧ (parseCharsetDefaulted opts m ct).2.res.headersSent = m.res.headersSent
      ∧ (parseCharsetDefaulted opts m ct).2.res.status = m.res.status
      ∧ (parseCharsetDefaulted opts m ct).2.res.stream = m.res.stream
      ∧ (opts.setCharset = false
          → (parseCharsetDefaulted opts m ct).2.res.headers = m.res.headers) := by
  unfold parseCharsetDefaulted
  split_ifs with h1
  · refine ⟨rfl, rfl, rfl, rfl, rfl, rfl, rfl, rfl, fun hsc => ?_⟩
    rw [hsc] at h1
    exact absurd h1.1 (by simp)
  · exact ⟨rfl, rfl, rfl, rfl, rfl, rfl, rfl, rfl, fun _ => rfl⟩

theorem parseCharset_frame (opts : BufferEncoderOptions) (m m₁ : TranscoderM) (c : JStr)
    (h : parseCharset opts m = .ok (c, m₁)) :
    m₁.t.hasSetJSON = m.t.hasSetJSON ∧ m₁.t.pendingChunks = m.t.pendingChunks
      ∧ m₁.endCalled = m.endCalled ∧ m₁.dest = m.dest
      ∧ m₁.res.headersSent = m.res.headersSent ∧ m₁.res.status = m.res.status
      ∧ m₁.res.stream = m.res.stream
      ∧ (opts.setCharset = false → m₁.res.headers = m.res.headers) := by
  unfold parseCharset at h
  split_ifs at h with h1
  · cases h
    exact ⟨rfl, rfl, rfl, rfl, rfl, rfl, rfl, fun _ => rfl⟩
  · unfold parseCharsetCore at h
    split at h
    · cases h
    · rename_i cOpt heq
      split_ifs at h with h2
      · cases h
        exact ⟨rfl, rfl, rfl, rfl, rfl, rfl, rfl, fun _ => rfl⟩
      · rw [Except.ok.injEq] at h
        have hm : (parseCharsetDefaulted opts m
            (hLookup m.res.headers (jstr "content-type"))).2 = m₁ :=
          congrArg Prod.snd h
        obtain ⟨f1, f2, f3, f4, f5, f6, f7, f8, f9⟩ :=
          parseCharsetDefaulted_frame opts m (hLookup m.res.headers (jstr "content-type"))
        rw [← hm]
        exact ⟨f1, f2, f4, f5, f6, f7, f8, f9⟩

theorem resolveEncoding_frame (opts : BufferEncoderOptions) (m m₁ : TranscoderM)
    (e : BufferEncoding) (h : resolveEncoding opts m = .ok (e, m₁)) :
    m₁.t.hasSetJSON = m.t.hasSetJSON ∧ m₁.t.pendingChunks = m.t.pendingChunks
      ∧ m₁.endCalled = m.endCalled ∧ m₁.dest = m.dest
      ∧ m₁.res.headersSent = m.res.headersSent ∧ m₁.res.status = m.res.status
      ∧ m₁.res.stream = m.res.stream
      ∧ (opts.setCharset = false → m₁.res.headers = m.res.headers) := by
  unfold resolveEncoding at h
  split at h
  · cases h
    exact ⟨rfl, rfl, rfl, rfl, rfl, rfl, rfl, fun _ => rfl⟩
  · split at h
    · cases h
    · rename_i hok
      cases h
      obtain ⟨f1, f2, f3, f4, f5, f6, f7, f8⟩ := parseCharset_frame _ _ _ _ hok
      exact ⟨f1, f2, f3, f4, f5, f6, f7, f8⟩

theorem setJSONMediaType_frame (m : TranscoderM) :
    (setJSONMediaType m).t.pendingChunks = m.t.pendingChunks
      ∧ (setJSONMediaType m).t.encoding = m.t.encoding
      ∧ (setJSONMediaType m).endCalled = m.endCalled
      ∧ (setJSONMediaType m).dest = m.dest
      ∧ (setJSONMediaType m).res.headersSent = m.res.headersSent
      ∧ (setJSONMediaType m).res.status = m.res.status
      ∧ (setJSONMediaType m).res.stream = m.res.stream := by
  unfold setJSONMediaType
  split_ifs with h1
  · exact ⟨rfl, rfl, rfl, rfl, rfl, rfl, rfl⟩
  · exact ⟨rfl, rfl, rfl, rfl, rfl, rfl, rfl⟩

theorem setJSONMediaType_noop (m : TranscoderM) (h : m.t.hasSetJSON = true) :
    setJSONMediaType m = m := by
  unfold setJSONMediaType
  rw [if_pos h]

theorem setJSONMediaType_rewrites (m : TranscoderM) (h : m.t.hasSetJSON = false) :
    hLookup (setJSONMediaType m).res.headers (jstr "content-type")
        = some (contentTypeJSONRewrite
            ((hLookup m.res.headers (jstr "content-type")).getD []))
      ∧ (setJSONMediaType m).t.hasSetJSON = true := by
  unfold setJSONMediaType
  rw [if_neg (by rw [h]; simp)]
  constructor
  · exact hLookup_hSet_same _ _ _
  · rfl

theorem deliverChunk_endCalled (m : TranscoderM) (b : Buf) (hend : m.endCalled = true) :
    deliverChunk m b
      = { m with t := { m.t with pendingChunks := m.t.pendingChunks ++ [b] } } := by
  unfold deliverChunk
  rw [if_pos hend]

theorem onData_endCalled (opts : BufferEncoderOptions) (m m₂ : TranscoderM) (c : Chunk)
    (hend : m.endCalled = true) (h : onData opts m c = .ok m₂) :
    ∃ b, NormRel c b ∧ m₂.endCalled = true ∧ m₂.dest = m.dest
      ∧ m₂.t.pendingChunks = m.t.pendingChunks ++ [b] := by
  cases c with
  | buf b =>
    simp only [onData] at h
    rw [deliverChunk_endCalled m b hend] at h
    cases h
    exact ⟨b, rfl, hend, rfl, rfl⟩
  | str s =>
    simp only [onData] at h
    split at h
    · cases h
    · rename_i e m₁ hok
      obtain ⟨f1, f2, f3, f4, f5, f6, f7, f8⟩ := resolveEncoding_frame _ _ _ _ hok
      rw [deliverChunk_endCalled m₁ _ (f3.trans hend)] at h
      cases h
      exact ⟨encodeString e s, ⟨e, rfl⟩, f3.trans hend, f4, by rw [f2]⟩
  | obj j =>
    simp only [onData] at h
    split at h
    · cases h
    · rename_i e m₁ hok
      obtain ⟨f1, f2, f3, f4, f5, f6, f7, f8⟩ := resolveEncoding_frame _ _ _ _ hok
      by_cases hcond : opts.setJSON = true ∧ ¬ m₁.t.hasSetJSON = true ∧ ¬ m₁.res.headersSent = true
      · rw [if_pos hcond] at h
        obtain ⟨g1, g2, g3, g4, g5, g6, g7⟩ := setJSONMediaType_frame m₁
        rw [deliverChunk_endCalled _ _ (g3.trans (f3.trans hend))] at h
        cases h
        refine ⟨encodeString e (jsonStringify j), ⟨e, rfl⟩, g3.trans (f3.trans hend), ?_, ?_⟩
        · rw [g4, f4]
        · rw [g1, f2]
      · rw [if_neg hcond] at h
        rw [deliverChunk_endCalled m₁ _ (f3.trans hend)] at h
        cases h
        exact ⟨encodeString e (jsonStringify j), ⟨e, rfl⟩, f3.trans hend, f4, by rw [f2]⟩

theorem transcoderRun_append (opts : BufferEncoderOptions) (l1 l2 : List TranscoderEv)
    (m m' : TranscoderM) (h : transcoderRun opts m (l1 ++ l2) = .ok m') :
    ∃ mm, transcoderRun opts m l1 = .ok mm ∧ transcoderRun opts mm l2 = .ok m' := by
  induction l1 generalizing m with
  | nil => exact ⟨m, rfl, h⟩
  | cons e rest ih =>
    simp only [List.cons_append, transcoderRun] at h ⊢
    cases hs : transcoderStep opts m e with
    | error err => rw [hs] at h; cases h
    | ok m₂ =>
      rw [hs] at h
      exact ih m₂ h

theorem transcoderRun_data_endCalled (opts : BufferEncoderOptions) (cs : List Chunk) :
    ∀ m m' : TranscoderM, m.endCalled = true
      → transcoderRun opts m (cs.map .data) = .ok m'
      → ∃ bufs, List.Forall₂ NormRel cs bufs ∧ m'.endCalled = true ∧ m'.dest = m.dest
          ∧ m'.t.pendingChunks = m.t.pendingChunks ++ bufs := by
  induction cs with
  | nil =>
    intro m m' hend h
    cases h
    exact ⟨[], List.Forall₂.nil, hend, rfl, by simp⟩
  | cons c rest ih =>
    intro m m' hend h
    simp only [List.map_cons, transcoderRun, transcoderStep] at h
    cases hs : onData opts m c with
    | error err => rw [hs] at h; cases h
    | ok m₂ =>
      rw [hs] at h
      obtain ⟨b, hb, hend₂, hdest₂, hpend₂⟩ := onData_endCalled opts m m₂ c hend hs
      obtain ⟨bufs, hF, hend', hdest', hpend'⟩ := ih m₂ m' hend₂ h
      refine ⟨b :: bufs, List.Forall₂.cons hb hF, hend', hdest'.trans hdest₂, ?_⟩
      rw [hpend', hpend₂, List.append_assoc]
      rfl

/-- C1: with a logical end already requested on the front stream, every chunk
delivered before physical completion is queued, and the completion event
writes all queued chunks (earlier pending ones first, then the new arrivals
in arrival order) to the forward target and only then ends it. -/
theorem c1_late_chunks_flushed (opts : BufferEncoderOptions) (m : TranscoderM)
    (cs : List Chunk) (m' : TranscoderM) (hend : m.endCalled = true)
    (hrun : transcoderRun opts m (cs.map .data ++ [.finish]) = .ok m') :
    ∃ bufs, List.Forall₂ NormRel cs bufs
      ∧ m'.dest = m.dest ++ (m.t.pendingChunks ++ bufs).map DestEv.write ++ [DestEv.ended]
      ∧ m'.t.pendingChunks = [] := by
  obtain ⟨mm, h1, h2⟩ := transcoderRun_append opts _ _ m m' hrun
  obtain ⟨bufs, hF, hendc, hdest, hpend⟩ := transcoderRun_data_endCalled opts cs m mm hend h1
  simp only [transcoderRun, transcoderStep] at h2
  cases h2
  refine ⟨bufs, hF, ?_, ?_⟩
  · simp only [onEnd, hdest, hpend]
  · rfl

theorem deliverChunk_frame (m : TranscoderM) (b : Buf) :
    (deliverChunk m b).t.hasSetJSON = m.t.hasSetJSON
      ∧ (deliverChunk m b).res = m.res := by
  unfold deliverChunk
  split_ifs with h1
  · exact ⟨rfl, rfl⟩
  · exact ⟨rfl, rfl⟩

theorem step_ct_invariant (opts : BufferEncoderOptions) (m m₂ : TranscoderM)
    (e : TranscoderEv) (ct0 : Option JStr) (hsc : opts.setCharset = false)
    (h : transcoderStep opts m e = .ok m₂)
    (hI : (m.t.hasSetJSON = false ∧ hLookup m.res.headers (jstr "content-type") = ct0)
        ∨ (m.t.hasSetJSON = true ∧ hLookup m.res.headers (jstr "content-type")
              = some (contentTypeJSONRewrite (ct0.getD [])))) :
    (m₂.t.hasSetJSON = false ∧ hLookup m₂.res.headers (jstr "content-type") = ct0)
      ∨ (m₂.t.hasSetJSON = true ∧ hLookup m₂.res.headers (jstr "content-type")
            = some (contentTypeJSONRewrite (ct0.getD []))) := by
  cases e with
  | endRequest =>
    cases h
    exact hI
  | finish =>
    cases h
    exact hI
  | data c =>
    cases c with
    | buf b =>
      simp only [transcoderStep, onData] at h
      cases h
      obtain ⟨d1, d2⟩ := deliverChunk_frame m b
      rw [d1, d2]
      exact hI
    | str s =>
      simp only [transcoderStep, onData] at h
      split at h
      · cases h
      · rename_i e' m₁ hok
        cases h
        obtain ⟨f1, _, _, _, _, _, _, f8⟩ := resolveEncoding_frame _ _ _ _ hok
        obtain ⟨d1, d2⟩ := deliverChunk_frame m₁ (encodeString e' s)
        rw [d1, d2, f1, f8 hsc]
        exact hI
    | obj j =>
      simp only [transcoderStep, onData] at h
      split at h
      · cases h
      · rename_i e' m₁ hok
        obtain ⟨f1, _, _, _, _, _, _, f8⟩ := resolveEncoding_frame _ _ _ _ hok
        by_cases hcond : opts.setJSON = true ∧ ¬ m₁.t.hasSetJSON = true
            ∧ ¬ m₁.res.headersSent = true
        · rw [if_pos hcond] at h
          cases h
          obtain ⟨d1, d2⟩ := deliverChunk_frame (setJSONMediaType m₁)
            (encodeString e' (jsonStringify j))
          rw [d1, d2]
          have hflag₁ : m₁.t.hasSetJSON = false := by
            rcases hcond with ⟨_, hc2, _⟩
            simpa using hc2
          obtain ⟨r1, r2⟩ := setJSONMediaType_rewrites m₁ hflag₁
          right
          refine ⟨r2, ?_⟩
          rw [r1, f8 hsc]
          rcases hI with ⟨hIf, hIc⟩ | ⟨hIf, hIc⟩
          · rw [hIc]
          · rw [f1] at hflag₁
            rw [hIf] at hflag₁
            cases hflag₁
        · rw [if_neg hcond] at h
          cases h
          obtain ⟨d1, d2⟩ := deliverChunk_frame m₁ (encodeString e' (jsonStringify j))
          rw [d1, d2, f1, f8 hsc]
          exact hI

theorem run_ct_invariant (opts : BufferEncoderOptions) (evs : List TranscoderEv)
    (ct0 : Option JStr) (hsc : opts.setCharset = false) :
    ∀ m m' : TranscoderM, transcoderRun opts m evs = .ok m'
      → ((m.t.hasSetJSON = false ∧ hLookup m.res.headers (jstr "content-type") = ct0)
          ∨ (m.t.hasSetJSON = true ∧ hLookup m.res.headers (jstr "content-type")
              = some (contentTypeJSONRewrite (ct0.getD []))))
      → ((m'.t.hasSetJSON = false ∧ hLookup m'.res.headers (jstr "content-type") = ct0)
          ∨ (m'.t.hasSetJSON = true ∧ hLookup m'.res.headers (jstr "content-type")
              = some (contentTypeJSONRewrite (ct0.getD [])))) := by
  induction evs with
  | nil =>
    intro m m' h hI
    cases h
    exact hI
  | cons e rest ih =>
    intro m m' h hI
    simp only [transcoderRun] at h
    cases hs : transcoderStep opts m e with
    | error err => rw [hs] at h; cases h
    | ok m₂ =>
      rw [hs] at h
      exact ih m₂ m' h (step_ct_invariant opts m m₂ e ct0 hsc hs hI)

/-- C5 (amended): over any event run of a `setJSON` transcoder (with
`setCharset` off so no other header write interferes) starting with the
JSON flag clear, the `content-type` header is either untouched or equals
exactly one application of the rewrite that maps every unparameterized
`;`-segment (not only the first) to `application/json`, keeping `key=value`
segments; and once the flag is set `setJSONMediaType` is a no-op, so the
rewrite happens at most once per response. -/
theorem c5_json_rewrite (opts : BufferEncoderOptions) (m : TranscoderM)
    (evs : List TranscoderEv) (m' : TranscoderM)
    (_hsj : opts.setJSON = true) (hsc : opts.setCharset = false)
    (hflag : m.t.hasSetJSON = false)
    (hrun : transcoderRun opts m evs = .ok m') :
    (∀ mm : TranscoderM, mm.t.hasSetJSON = true → setJSONMediaType mm = mm)
      ∧ (hLookup m'.res.headers (jstr "content-type")
            = hLookup m.res.headers (jstr "content-type")
         ∨ hLookup m'.res.headers (jstr "content-type")
            = some (contentTypeJSONRewrite
                ((hLookup m.res.headers (jstr "content-type")).getD []))) := by
  refine ⟨setJSONMediaType_noop, ?_⟩
  have hfin := run_ct_invariant opts evs (hLookup m.res.headers (jstr "content-type")) hsc
    m m' hrun (Or.inl ⟨hflag, rfl⟩)
  rcases hfin with ⟨_, hc⟩ | ⟨_, hc⟩
  · left; exact hc
  · right; exact hc

/-- C5 counterexample: on content type `text/plain;foo;charset=utf-8` the
rewrite turns the second unparameterized segment `foo` into
`application/json` as well — the claim that segments other than the first
unparameterized one keep their prior text is false. -/
theorem c5_counterexample :
    (onData { setJSON := true }
          ⟨{}, ⟨200, [(jstr "content-type", some (jstr "text/plain;foo;charset=utf-8"))],
             false, []⟩, false, []⟩ (.obj .null)).toOption.map
        (fun mm => ((hLookup mm.res.headers (jstr "content-type")).getD []).splitOn ';')
      = some [jstr "application/json", jstr "application/json", jstr "charset=utf-8"]
    ∧ (jstr "text/plain;foo;charset=utf-8").splitOn ';'
        = [jstr "text/plain", jstr "foo", jstr "charset=utf-8"]
    ∧ jstr "application/json" ≠ jstr "foo" := by
  decide

/-- C4 (code bug): on a `content-type` of `text/plain;charset` — a `charset`
parameter with no `=` — `parseCharset` dereferences the `undefined`
parameter value (`charset.indexOf`) and faults instead of degrading to the
default, and so does the data handler on a string chunk; with `charset=`
(empty value) it degrades to `utf-8` as the claim describes. -/
theorem c4_charset_without_equals_faults :
    parseCharset {}
        ⟨{}, ⟨200, [(jstr "content-type", some (jstr "text/plain;charset"))], false, []⟩,
         false, []⟩
      = .error ()
    ∧ onData {}
        ⟨{}, ⟨200, [(jstr "content-type", some (jstr "text/plain;charset"))], false, []⟩,
         false, []⟩ (.str (jstr "a"))
      = .error ()
    ∧ (parseCharset {}
        ⟨{}, ⟨200, [(jstr "content-type", some (jstr "text/plain;charset="))], false, []⟩,
         false, []⟩).toOption.map Prod.fst
      = some (jstr "utf-8") := by
  refine ⟨by decide, by decide, by decide⟩

/-- C10: when `setCharset` is configured, headers are unsent and no
`content-type` header exists, charset resolution writes the header value
`;charset=` followed by the resolved default — a value that starts with a
semicolon and carries no media type. -/
theorem c10_setCharset_defaults (opts : BufferEncoderOptions) (m : TranscoderM)
    (hct : hGetEntry m.res.headers (jstr "content-type") = none)
    (hch : m.t.charset = none) (hsc : opts.setCharset = true)
    (hhs : m.res.headersSent = false) :
    ∃ m', parseCharset opts m = .ok (resolveDefaultCharset opts, m')
      ∧ hLookup m'.res.headers (jstr "content-type")
          = some (jstr ";charset=" ++ resolveDefaultCharset opts) := by
  have h1 : truthyStr m.t.charset = false := by rw [hch]; rfl
  have hclt : hLookup m.res.headers (jstr "content-type") = none := by
    unfold hLookup
    rw [hct]
    rfl
  unfold parseCharset
  rw [h1, hclt]
  simp only [Bool.false_eq_true, if_false]
  unfold parseCharsetCore parseCharsetDefaulted
  simp only [truthyStr, Bool.false_eq_true, if_false, Option.getD_none]
  rw [if_pos (show opts.setCharset = true ∧ ¬(m.res.headersSent = true) from
      ⟨hsc, by rw [hhs]; simp⟩)]
  refine ⟨_, rfl, ?_⟩
  simp [hLookup_hSet_same]

/-- Initial machine state for the C1 witness: one chunk already queued
behind a requested logical end. -/
def c1WitnessM0 : TranscoderM :=
  ⟨⟨none, none, false, [[97]]⟩, ⟨200, [], false, []⟩, true, []⟩

/-- Final machine state for the C1 witness. -/
def c1WitnessM1 : TranscoderM :=
  ⟨⟨none, none, false, []⟩, ⟨200, [], false, []⟩, true,
    [DestEv.write [97], DestEv.write [98], DestEv.ended]⟩

/-- Witness for C1: with byte `97` already queued and byte `98` arriving
after the logical end, completion writes `97` then `98` then ends. -/
theorem c1_late_chunks_flushed_witness :
    ∃ bufs, List.Forall₂ NormRel [Chunk.buf [98]] bufs
      ∧ c1WitnessM1.dest
          = c1WitnessM0.dest ++ (c1WitnessM0.t.pendingChunks ++ bufs).map DestEv.write
            ++ [DestEv.ended]
      ∧ c1WitnessM1.t.pendingChunks = [] :=
  c1_late_chunks_flushed {} c1WitnessM0 [Chunk.buf [98]] c1WitnessM1 rfl (by decide)

/-- Initial machine state for the C5 witness: plain-text content type, JSON
flag clear. -/
def c5WitnessM0 : TranscoderM :=
  ⟨⟨none, none, false, []⟩,
   ⟨200, [(jstr "content-type", some (jstr "text/plain"))], false, []⟩, false, []⟩

/-- Final machine state for the C5 witness: content type rewritten to the
JSON media type exactly once. -/
def c5WitnessM1 : TranscoderM :=
  ⟨⟨some (jstr "utf-8"), some .utf8, true, []⟩,
   ⟨200, [(jstr "content-type", some (jstr "application/json"))], false, []⟩, false,
   [DestEv.write [110, 117, 108, 108]]⟩

/-- Witness for the amended C5: one structured chunk through a `setJSON`
transcoder rewrites the content type by the segment map. -/
theorem c5_json_rewrite_witness :
    hLookup c5WitnessM1.res.headers (jstr "content-type")
        = hLookup c5WitnessM0.res.headers (jstr "content-type")
      ∨ hLookup c5WitnessM1.res.headers (jstr "content-type")
        = some (contentTypeJSONRewrite
            ((hLookup c5WitnessM0.res.headers (jstr "content-type")).getD [])) :=
  (c5_json_rewrite { setJSON := true } c5WitnessM0 [.data (.obj .null)] c5WitnessM1
    rfl rfl rfl (by decide)).2

/-- Witness for C10: with no `content-type` header and `setCharset` on, the
resolution writes `;charset=utf-8`. -/
theorem c10_setCharset_defaults_witness :
    ∃ m', parseCharset ⟨none, true, false⟩ ⟨⟨none, none, false, []⟩, ⟨200, [], false, []⟩,
        false, []⟩
        = .ok (resolveDefaultCharset ⟨none, true, false⟩, m')
      ∧ hLookup m'.res.headers (jstr "content-type")
          = some (jstr ";charset=" ++ resolveDefaultCharset ⟨none, true, false⟩) :=
  c10_setCharset_defaults ⟨none, true, false⟩
    ⟨⟨none, none, false, []⟩, ⟨200, [], false, []⟩, false, []⟩ rfl rfl rfl rfl
